import Mathlib

/-!
The operator-invocation builder `AclOpRunner` of `ascend/common/acloprunner.hpp`

A shallow embedding of the header.

* A pointer is a natural number and `nullptr` is `0`.
* A tensor handle is `Option Tensor`: `none` is the null handle, `some t` carries what the
  `diopiGetTensor*` queries return for the handle.
* The vendor runtime (ACL) is external.  Every call the header makes into it is appended to
  the `trace` field of the runner, and the value a call returns is taken from a `Vendor`
  oracle, an arbitrary function of the calls made so far and of the arguments.
* `std::abort()` (macro `check_args`) is the `aborted` outcome; it carries the state at the
  moment of the abort, so that "nothing was stored" can be stated.
* Text written to standard output (`printf` in `CALL_ACLRT`, `warning`, `info`, and the
  environment toggle that only guards an `info`) is left out.
-/

namespace impl.ascend

/-! ## External types -/

/-- A raw pointer or vendor handle; `0` is the null pointer. -/
abbrev Ptr := Nat

/-- The null pointer. -/
abbrev nullptr : Ptr := 0

/-- Modelled from the spec: the enumeration `diopiDtype_t` of `diopi/diopirt.h`, which is
not among the sources.  The twelve enumerators named in `getAclDataType` are kept by name;
`unlisted code` stands for every other value of the enumeration. -/
inductive diopiDtype_t where
  | diopi_dtype_float16
  | diopi_dtype_float32
  | diopi_dtype_float64
  | diopi_dtype_int8
  | diopi_dtype_uint8
  | diopi_dtype_int16
  | diopi_dtype_uint16
  | diopi_dtype_int32
  | diopi_dtype_uint32
  | diopi_dtype_int64
  | diopi_dtype_uint64
  | diopi_dtype_bool
  | unlisted (code : Nat)
  deriving DecidableEq, Repr

/-- Modelled from the spec: the vendor enumeration `aclDataType`, which is declared in the
vendor headers and not among the sources, restricted to the enumerators that
`getAclDataType` names. -/
inductive aclDataType where
  | ACL_DT_UNDEFINED
  | ACL_FLOAT16
  | ACL_FLOAT
  | ACL_DOUBLE
  | ACL_INT8
  | ACL_UINT8
  | ACL_INT16
  | ACL_UINT16
  | ACL_INT32
  | ACL_UINT32
  | ACL_INT64
  | ACL_UINT64
  | ACL_BOOL
  deriving DecidableEq, Repr

/-- Modelled from the spec: the vendor enumeration `aclFormat`, declared in the vendor
headers.  `getAclDataFormat` names the 4D layout tag and the generic tag; `other tag` is
any further layout a caller may pass. -/
inductive aclFormat where
  | ACL_FORMAT_NCHW
  | ACL_FORMAT_ND
  | other (tag : Nat)
  deriving DecidableEq, Repr

/-- Modelled from the spec: the vendor enumeration `aclEngineType`, declared in the vendor
headers: the "system default" enumerator that `run` names, and `other tag` for the rest. -/
inductive aclEngineType where
  | ACL_ENGINE_SYS
  | other (tag : Nat)
  deriving DecidableEq, Repr

/-- Modelled from the spec: the vendor enumeration `aclCompileType`, declared in the vendor
headers: the "system default" enumerator that `run` names, and `other tag` for the rest. -/
inductive aclCompileType where
  | ACL_COMPILE_SYS
  | other (tag : Nat)
  deriving DecidableEq, Repr

/-- Modelled from the spec: the vendor status type `aclError`, declared in the vendor
headers: the success status that `run` tests for, and `failure code` for every other
status. -/
inductive aclError where
  | ACL_SUCCESS
  | failure (code : Nat)
  deriving DecidableEq, Repr

/-- What the tensor ABI reports for a non-null handle: element type
(`diopiGetTensorDtype`), shape and stride (`diopiSize_t`, `len` is the list length),
element count, element size and the device pointer. -/
structure Tensor where
  dtype : diopiDtype_t
  shape : List Int
  stride : List Int
  numel : Int
  itemsize : Int
  data : Ptr
  deriving DecidableEq, Repr

/-- A `diopiConstTensorHandle_t`: `none` is `nullptr`. -/
abbrev diopiConstTensorHandle_t := Option Tensor

/-- A `diopiTensorHandle_t`: `none` is `nullptr`. -/
abbrev diopiTensorHandle_t := Option Tensor

/-- A `diopiContextHandle_t`, of which `run` only reads the stream (`diopiGetStream`). -/
structure diopiContext where
  stream : Ptr
  deriving DecidableEq, Repr

/-! ## Aborting -/

/-- Which `check_args` stopped the process. -/
inductive AbortCause where
  | unsupportedDtype
  | nullTensor
  | indexRange
  | nullDesc
  | noSpecialization
  deriving DecidableEq, Repr

/-! ## Dtype and format mapping -/

/-- Function `getAclDataType`: the `switch` over the element type; falling out of the `switch`
reaches `check_args(false, ...)`, which aborts. -/
def getAclDataType (th : Tensor) : Except AbortCause aclDataType :=
  match th.dtype with
  | .diopi_dtype_float16 => .ok .ACL_FLOAT16
  | .diopi_dtype_float32 => .ok .ACL_FLOAT
  | .diopi_dtype_float64 => .ok .ACL_DOUBLE
  | .diopi_dtype_int8 => .ok .ACL_INT8
  | .diopi_dtype_uint8 => .ok .ACL_UINT8
  | .diopi_dtype_int16 => .ok .ACL_INT16
  | .diopi_dtype_uint16 => .ok .ACL_UINT16
  | .diopi_dtype_int32 => .ok .ACL_INT32
  | .diopi_dtype_uint32 => .ok .ACL_UINT32
  | .diopi_dtype_int64 => .ok .ACL_INT64
  | .diopi_dtype_uint64 => .ok .ACL_UINT64
  | .diopi_dtype_bool => .ok .ACL_BOOL
  | .unlisted _ => .error .unsupportedDtype

/-- Function `getAclDataFormat`: shape and stride are read, only `shape.len` is used. -/
def getAclDataFormat (th : Tensor) : aclFormat :=
  if th.shape.length = 4 then .ACL_FORMAT_NCHW else .ACL_FORMAT_ND

/-! ## The vendor runtime -/

/-- The NUL character, which ends a C string. -/
def NUL : Char := Char.ofNat 0

/-- The C string that a `const char*` argument `s.data()` denotes for a `std::string` `s`:
the characters of `s` before its first NUL (all of `s` when it holds none). -/
def c_str (s : String) : String := ⟨s.data.takeWhile (fun c => decide (c ≠ NUL))⟩

/-- One call into the vendor runtime, with its arguments and (for the calls whose result
the header uses) the value returned.  Arrays passed by pointer are recorded by content;
counts and byte sizes are recorded as natural numbers, a `float` by its bit pattern and a
`const char*` argument by the C string it denotes (see `c_str`). -/
inductive AclCall where
  | aclopCreateAttr (ret : Ptr)
  | aclopDestroyAttr (attr : Ptr)
  | aclCreateTensorDesc (dataType : aclDataType) (numDims : Nat) (dims : List Int)
      (format : aclFormat) (ret : Ptr)
  | aclCreateDataBuffer (data : Ptr) (size : Nat) (ret : Ptr)
  | aclDestroyTensorDesc (desc : Ptr)
  | aclDestroyDataBuffer (buffer : Ptr)
  | aclopSetAttrInt (attr : Ptr) (attrName : String) (attrValue : Int)
  | aclopSetAttrFloat (attr : Ptr) (attrName : String) (attrValueBits : Nat)
  | aclopSetAttrBool (attr : Ptr) (attrName : String) (attrValue : Nat)
  | aclopSetAttrString (attr : Ptr) (attrName : String) (attrValue : String)
  | aclopSetAttrListInt (attr : Ptr) (attrName : String) (numValues : Nat)
      (values : List Int)
  | aclopCompileAndExecute (opType : String) (numInputs : Nat) (inputDesc : List Ptr)
      (inputs : List Ptr) (numOutputs : Nat) (outputDesc : List Ptr) (outputs : List Ptr)
      (attr : Ptr) (engineType : aclEngineType) (compileFlag : aclCompileType)
      (opPath : Ptr) (stream : Ptr) (ret : aclError)
  | aclGetRecentErrMsg
  deriving DecidableEq, Repr

/-- The values the vendor runtime returns: each is an arbitrary function of the calls made
so far and of the arguments of the call. -/
structure Vendor where
  aclopCreateAttr : List AclCall → Ptr
  aclCreateTensorDesc : List AclCall → aclDataType → Nat → List Int → aclFormat → Ptr
  aclCreateDataBuffer : List AclCall → Ptr → Nat → Ptr
  aclopCompileAndExecute : List AclCall → aclError

/-! ## The runner -/

/-- The template arguments of `AclOpRunner`. -/
structure TemplateArgs where
  InputSize : Nat := 8
  OutputSize : Nat := 8
  dtypeCastStrategy : Tensor → Except AbortCause aclDataType := getAclDataType

/-- The data members of `AclOpRunner`, and the vendor calls issued so far.  A
`std::array<T*, N>` is a list; the constructor makes it of length `N` and no operation
changes the length. -/
structure AclOpRunner where
  opname_ : String
  attr_ : Ptr
  inputDescs_ : List Ptr
  inputBuffers_ : List Ptr
  outputDescs_ : List Ptr
  outputBuffers_ : List Ptr
  trace : List AclCall
  deriving DecidableEq, Repr

/-- A member function either returns (`*this`, as the new state) or the process aborts. -/
inductive Outcome where
  | returned (r : AclOpRunner)
  | aborted (cause : AbortCause) (r : AclOpRunner)
  deriving DecidableEq, Repr

/-- Chaining `a.f(...).g(...)`: after an abort nothing more runs. -/
def Outcome.andThen (o : Outcome) (f : AclOpRunner → Outcome) : Outcome :=
  match o with
  | .returned r => f r
  | .aborted c r => .aborted c r

/-- The indeterminate contents of the four member arrays before the constructor body
runs (default-initialised `std::array` of pointers). -/
structure RawStorage where
  inputDescs : Nat → Ptr
  inputBuffers : Nat → Ptr
  outputDescs : Nat → Ptr
  outputBuffers : Nat → Ptr

/-- Member `std::array::fill`. -/
def fill (a : List Ptr) (v : Ptr) : List Ptr := List.replicate a.length v

namespace AclOpRunner

/-- The constructor `AclOpRunner(std::string opname)`: the attribute set is created, then
the body runs its four `fill` statements in order, `inputBuffers_` being filled twice. -/
def ctor (T : TemplateArgs) (V : Vendor) (raw : RawStorage) (opname : String) :
    AclOpRunner :=
  let attr := V.aclopCreateAttr []
  let r0 : AclOpRunner :=
    { opname_ := opname
      attr_ := attr
      inputDescs_ := (List.range T.InputSize).map raw.inputDescs
      inputBuffers_ := (List.range T.InputSize).map raw.inputBuffers
      outputDescs_ := (List.range T.OutputSize).map raw.outputDescs
      outputBuffers_ := (List.range T.OutputSize).map raw.outputBuffers
      trace := [.aclopCreateAttr attr] }
  let r1 := { r0 with inputDescs_ := fill r0.inputDescs_ nullptr }
  let r2 := { r1 with inputBuffers_ := fill r1.inputBuffers_ nullptr }
  let r3 := { r2 with outputDescs_ := fill r2.outputDescs_ nullptr }
  { r3 with inputBuffers_ := fill r3.inputBuffers_ nullptr }

/-- The lambda `destoryAclTensorDesc` of the destructor. -/
def destoryAclTensorDesc (desc : Ptr) : List AclCall :=
  if desc ≠ nullptr then [.aclDestroyTensorDesc desc] else []

/-- The lambda `destoryAclDataBuffer` of the destructor. -/
def destoryAclDataBuffer (buffer : Ptr) : List AclCall :=
  if buffer ≠ nullptr then [.aclDestroyDataBuffer buffer] else []

/-- Algorithm `std::for_each(a.begin(), a.end(), f)`, as the calls it issues. -/
def for_each (a : List Ptr) (f : Ptr → List AclCall) : List AclCall :=
  match a with
  | [] => []
  | p :: ps => f p ++ for_each ps f

/-- The vendor calls the destructor issues, in order. -/
def dtorCalls (r : AclOpRunner) : List AclCall :=
  [.aclopDestroyAttr r.attr_]
    ++ for_each r.inputDescs_ destoryAclTensorDesc
    ++ for_each r.outputDescs_ destoryAclTensorDesc
    ++ for_each r.inputBuffers_ destoryAclDataBuffer
    ++ for_each r.outputBuffers_ destoryAclDataBuffer

/-- The destructor `~AclOpRunner()`: the trace once the object is gone. -/
def dtor (r : AclOpRunner) : List AclCall := r.trace ++ dtorCalls r

/-- The copy loop `for (i = 0; i < dims.size(); ++i) dims[i] = shape.data[i]`; `fuel` is
the number of iterations left. -/
def copyShape (shape : List Int) : (fuel i : Nat) → (dims : List Int) → List Int
  | 0, _, dims => dims
  | fuel + 1, i, dims => copyShape shape fuel (i + 1) (dims.set i (shape.getD i 0))

/-- The vector `dims` of `addInput` and `addOutput`: `shape.len` zeros, overwritten by the
copy loop, with `1` pushed when it is empty and `numel == 1`. -/
def tensorDims (t : Tensor) : List Int :=
  let dims := copyShape t.shape t.shape.length 0 (List.replicate t.shape.length 0)
  if dims.length = 0 ∧ t.numel = 1 then dims ++ [1] else dims

/-- The byte length `numel * itemsize`, an `int64_t` product converted to `size_t`. -/
def bufferSize (t : Tensor) : Nat := ((t.numel * t.itemsize) % 2 ^ 64).toNat

/-- The loop `for (i = 0; i < Size; i++) if (descs[i] == nullptr) { finalIndex = i; break; }`;
`fuel` is the number of iterations left. -/
def scanFirstNull (descs : List Ptr) : (fuel i : Nat) → (finalIndex : Int) → Int
  | 0, _, finalIndex => finalIndex
  | fuel + 1, i, finalIndex =>
    if descs.getD i nullptr = nullptr then (i : Int)
    else scanFirstNull descs fuel (i + 1) finalIndex

/-- The value of `finalIndex` at the bounds check. -/
def finalIndex (descs : List Ptr) (size : Nat) (index : Int) : Int :=
  if index < 0 then scanFirstNull descs size 0 index else index

/-- Member `addInput(const int index, diopiConstTensorHandle_t th, const aclFormat& format)`. -/
def addInput (T : TemplateArgs) (V : Vendor) (index : Int) (th : diopiConstTensorHandle_t)
    (format : aclFormat) (r : AclOpRunner) : Outcome :=
  match th with
  | none => .aborted .nullTensor r
  | some t =>
    let dims := tensorDims t
    let fi := finalIndex r.inputDescs_ T.InputSize index
    if 0 ≤ fi ∧ fi < (T.InputSize : Int) then
      match T.dtypeCastStrategy t with
      | .error c => .aborted c r
      | .ok dt =>
        let desc := V.aclCreateTensorDesc r.trace dt dims.length dims format
        let r1 := { r with
          inputDescs_ := r.inputDescs_.set fi.toNat desc
          trace := r.trace ++ [.aclCreateTensorDesc dt dims.length dims format desc] }
        if desc = nullptr then .aborted .nullDesc r1
        else
          let buffer := V.aclCreateDataBuffer r1.trace t.data (bufferSize t)
          .returned { r1 with
            inputBuffers_ := r1.inputBuffers_.set fi.toNat buffer
            trace := r1.trace ++ [.aclCreateDataBuffer t.data (bufferSize t) buffer] }
    else .aborted .indexRange r

/-- Member `addOutput(const int index, diopiTensorHandle_t th, const aclFormat format)`. -/
def addOutput (T : TemplateArgs) (V : Vendor) (index : Int) (th : diopiTensorHandle_t)
    (format : aclFormat) (r : AclOpRunner) : Outcome :=
  match th with
  | none => .aborted .nullTensor r
  | some t =>
    let dims := tensorDims t
    let fi := finalIndex r.outputDescs_ T.OutputSize index
    if 0 ≤ fi ∧ fi < (T.OutputSize : Int) then
      match T.dtypeCastStrategy t with
      | .error c => .aborted c r
      | .ok dt =>
        let desc := V.aclCreateTensorDesc r.trace dt dims.length dims format
        let r1 := { r with
          outputDescs_ := r.outputDescs_.set fi.toNat desc
          trace := r.trace ++ [.aclCreateTensorDesc dt dims.length dims format desc] }
        if desc = nullptr then .aborted .nullDesc r1
        else
          let buffer := V.aclCreateDataBuffer r1.trace t.data (bufferSize t)
          .returned { r1 with
            outputBuffers_ := r1.outputBuffers_.set fi.toNat buffer
            trace := r1.trace ++ [.aclCreateDataBuffer t.data (bufferSize t) buffer] }
    else .aborted .indexRange r

/-- The overloads without a format, `addInput(index, th)` and `addInput<index>(th)`: the
format is `getAclDataFormat(th)`.  On a null handle the callee aborts at its first
statement, whatever the format argument is. -/
def addInputDefaultFormat (T : TemplateArgs) (V : Vendor) (index : Int)
    (th : diopiConstTensorHandle_t) (r : AclOpRunner) : Outcome :=
  match th with
  | none => addInput T V index none .ACL_FORMAT_ND r
  | some t => addInput T V index (some t) (getAclDataFormat t) r

/-- The overload `addOutput<index>(th)`: the format is `getAclDataFormat(th)`. -/
def addOutputDefaultFormat (T : TemplateArgs) (V : Vendor) (index : Int)
    (th : diopiTensorHandle_t) (r : AclOpRunner) : Outcome :=
  match th with
  | none => addOutput T V index none .ACL_FORMAT_ND r
  | some t => addOutput T V index (some t) (getAclDataFormat t) r

/-- The variadic `addInput(in, ins...)`, that is `addInput<-1>(in).addInput(ins...)`; with an
empty pack overload resolution selects `addInput<-1>(in)` itself. -/
def addInputVariadic (T : TemplateArgs) (V : Vendor) :
    diopiConstTensorHandle_t → List diopiConstTensorHandle_t → AclOpRunner → Outcome
  | in_, [], r => addInputDefaultFormat T V (-1) in_ r
  | in_, x :: xs, r =>
    (addInputDefaultFormat T V (-1) in_ r).andThen (addInputVariadic T V x xs)

/-- The variadic `addOutput(out, outs...)`, that is `addOutput<-1>(out).addOutput(outs...)`. -/
def addOutputVariadic (T : TemplateArgs) (V : Vendor) :
    diopiTensorHandle_t → List diopiTensorHandle_t → AclOpRunner → Outcome
  | out, [], r => addOutputDefaultFormat T V (-1) out r
  | out, x :: xs, r =>
    (addOutputDefaultFormat T V (-1) out r).andThen (addOutputVariadic T V x xs)

/-- The argument of the scalar `setAttr<T>`, by the type `T` it is instantiated at. -/
inductive AttrValue where
  | int64_t (value : Int)
  | int (value : Int)
  | float (bits : Nat)
  | uint8_t (value : Nat)
  | bool (value : Bool)
  | string (value : String)
  | otherType
  deriving DecidableEq, Repr

/-- Member `setAttr(const std::string& attrName, const T& value)`: the chain of
`if constexpr`; the name is passed as `attrName.data()` and a string value as
`value.data()`. -/
def setAttr (attrName : String) (value : AttrValue) (r : AclOpRunner) : Outcome :=
  match value with
  | .int64_t v =>
    .returned { r with trace := r.trace ++ [.aclopSetAttrInt r.attr_ (c_str attrName) v] }
  | .int v =>
    .returned { r with trace := r.trace ++ [.aclopSetAttrInt r.attr_ (c_str attrName) v] }
  | .float b =>
    .returned { r with trace := r.trace ++ [.aclopSetAttrFloat r.attr_ (c_str attrName) b] }
  | .uint8_t v =>
    .returned { r with trace := r.trace ++ [.aclopSetAttrBool r.attr_ (c_str attrName) v] }
  | .bool b =>
    .returned { r with
      trace := r.trace ++
        [.aclopSetAttrBool r.attr_ (c_str attrName) (if b then 1 else 0)] }
  | .string v =>
    .returned { r with
      trace := r.trace ++ [.aclopSetAttrString r.attr_ (c_str attrName) (c_str v)] }
  | .otherType => .aborted .noSpecialization r

/-- Conversion of an integral value to `int64_t`. -/
def toInt64 (v : Int) : Int := (v + 2 ^ 63) % 2 ^ 64 - 2 ^ 63

/-- Member `setAttr(const std::string& attrName, const std::vector<T>& value)`: the elements are
copied into a `std::vector<int64_t>`, which is passed with its size; the name is passed as
`attrName.data()`. -/
def setAttrVector (attrName : String) (value : List Int) (r : AclOpRunner) : Outcome :=
  let vec := value.map toInt64
  .returned { r with
    trace := r.trace ++ [.aclopSetAttrListInt r.attr_ (c_str attrName) vec.length vec] }

/-- The counting loops of `run`: `for (i = 0; i < Size; i++) if (descs[i] != nullptr) n++`;
`fuel` is the number of iterations left. -/
def countNonNull (descs : List Ptr) : (fuel i : Nat) → (n : Nat) → Nat
  | 0, _, n => n
  | fuel + 1, i, n =>
    countNonNull descs fuel (i + 1) (if descs.getD i nullptr ≠ nullptr then n + 1 else n)

/-- Member `run<EngineType, CompileType>(ctx)`. -/
def run (T : TemplateArgs) (V : Vendor) (EngineType : aclEngineType)
    (CompileType : aclCompileType) (ctx : diopiContext) (r : AclOpRunner) : AclOpRunner :=
  let stream := ctx.stream
  let inSize := countNonNull r.inputDescs_ T.InputSize 0 0
  let outSize := countNonNull r.outputDescs_ T.OutputSize 0 0
  let errorcode := V.aclopCompileAndExecute r.trace
  let r1 := { r with
    trace := r.trace ++ [.aclopCompileAndExecute (c_str r.opname_) inSize r.inputDescs_
      r.inputBuffers_ outSize r.outputDescs_ r.outputBuffers_ r.attr_ EngineType
      CompileType nullptr stream errorcode] }
  if errorcode ≠ .ACL_SUCCESS then { r1 with trace := r1.trace ++ [.aclGetRecentErrMsg] }
  else r1

/-- One populating call of a client. -/
inductive Call where
  | addInput (index : Int) (th : diopiConstTensorHandle_t) (format : aclFormat)
  | addOutput (index : Int) (th : diopiTensorHandle_t) (format : aclFormat)
  deriving DecidableEq, Repr

/-- Execute one populating call. -/
def Call.exec (T : TemplateArgs) (V : Vendor) (c : Call) (r : AclOpRunner) : Outcome :=
  match c with
  | .addInput index th format => AclOpRunner.addInput T V index th format r
  | .addOutput index th format => AclOpRunner.addOutput T V index th format r

/-- Execute a sequence of populating calls, stopping at the first abort. -/
def populate (T : TemplateArgs) (V : Vendor) : List Call → AclOpRunner → Outcome
  | [], r => .returned r
  | c :: cs, r => (c.exec T V r).andThen (populate T V cs)

/-! ## Vocabulary of the statements -/

/-- The member arrays have the lengths fixed by the template arguments. -/
def WellSized (T : TemplateArgs) (r : AclOpRunner) : Prop :=
  r.inputDescs_.length = T.InputSize ∧ r.inputBuffers_.length = T.InputSize ∧
  r.outputDescs_.length = T.OutputSize ∧ r.outputBuffers_.length = T.OutputSize

/-- The free slots of a descriptor array, lowest index first: the positions below `size`
that hold the null pointer. -/
def freeSlots (descs : List Ptr) (size : Nat) : List Nat :=
  (List.range' 0 size).filter (fun k => decide (descs.getD k nullptr = nullptr))

/-- The descriptor handle the vendor returns to an add made in state `r`. -/
def newDesc (V : Vendor) (r : AclOpRunner) (dt : aclDataType) (t : Tensor)
    (format : aclFormat) : Ptr :=
  V.aclCreateTensorDesc r.trace dt (tensorDims t).length (tensorDims t) format

/-- The create-descriptor call of an add made in state `r`. -/
def descCall (V : Vendor) (r : AclOpRunner) (dt : aclDataType) (t : Tensor)
    (format : aclFormat) : AclCall :=
  .aclCreateTensorDesc dt (tensorDims t).length (tensorDims t) format (newDesc V r dt t format)

/-- The buffer handle the vendor returns to an add made in state `r`. -/
def newBuffer (V : Vendor) (r : AclOpRunner) (dt : aclDataType) (t : Tensor)
    (format : aclFormat) : Ptr :=
  V.aclCreateDataBuffer (r.trace ++ [descCall V r dt t format]) t.data (bufferSize t)

/-- The create-buffer call of an add made in state `r`. -/
def bufferCall (V : Vendor) (r : AclOpRunner) (dt : aclDataType) (t : Tensor)
    (format : aclFormat) : AclCall :=
  .aclCreateDataBuffer t.data (bufferSize t) (newBuffer V r dt t format)

/-- The state after `addInput` stored tensor `t` in input slot `f`. -/
def storedInput (V : Vendor) (r : AclOpRunner) (dt : aclDataType) (t : Tensor)
    (format : aclFormat) (f : Nat) : AclOpRunner :=
  { r with
    inputDescs_ := r.inputDescs_.set f (newDesc V r dt t format)
    inputBuffers_ := r.inputBuffers_.set f (newBuffer V r dt t format)
    trace := r.trace ++ [descCall V r dt t format, bufferCall V r dt t format] }

/-- The state after `addOutput` stored tensor `t` in output slot `f`. -/
def storedOutput (V : Vendor) (r : AclOpRunner) (dt : aclDataType) (t : Tensor)
    (format : aclFormat) (f : Nat) : AclOpRunner :=
  { r with
    outputDescs_ := r.outputDescs_.set f (newDesc V r dt t format)
    outputBuffers_ := r.outputBuffers_.set f (newBuffer V r dt t format)
    trace := r.trace ++ [descCall V r dt t format, bufferCall V r dt t format] }

/-- Whether a populating call is an `addInput`. -/
def Call.isInput : Call → Bool
  | .addInput _ _ _ => true
  | .addOutput _ _ _ => false

/-- The tensor handle argument of a populating call. -/
def Call.tensor : Call → Option Tensor
  | .addInput _ th _ => th
  | .addOutput _ th _ => th

/-- The position argument of a populating call. -/
def Call.index : Call → Int
  | .addInput index _ _ => index
  | .addOutput index _ _ => index

/-! ## Concrete inputs -/

/-- A vendor that hands out a fresh non-null handle at every create call and reports
success. -/
def freshVendor : Vendor where
  aclopCreateAttr := fun tr => tr.length + 1
  aclCreateTensorDesc := fun tr _ _ _ _ => tr.length + 1
  aclCreateDataBuffer := fun tr _ _ => tr.length + 1
  aclopCompileAndExecute := fun _ => .ACL_SUCCESS

/-- Storage that happens to be all zero before construction. -/
def zeroStorage : RawStorage where
  inputDescs := fun _ => 0
  inputBuffers := fun _ => 0
  outputDescs := fun _ => 0
  outputBuffers := fun _ => 0

/-- Storage whose word under `outputBuffers_[0]` is `0xDEAD` before construction. -/
def staleStorage : RawStorage where
  inputDescs := fun _ => 0
  inputBuffers := fun _ => 0
  outputDescs := fun _ => 0
  outputBuffers := fun i => if i = 0 then 57005 else 0

/-- A 2x3 `float32` tensor. -/
def matrixTensor : Tensor where
  dtype := .diopi_dtype_float32
  shape := [2, 3]
  stride := [3, 1]
  numel := 6
  itemsize := 4
  data := 4096

/-- A 0-dimensional `int64` tensor with one element. -/
def scalarTensor : Tensor where
  dtype := .diopi_dtype_int64
  shape := []
  stride := []
  numel := 1
  itemsize := 8
  data := 8192

/-- A tensor whose element type is not among the twelve of `getAclDataType`. -/
def unlistedTensor : Tensor where
  dtype := .unlisted 12
  shape := [4]
  stride := [1]
  numel := 4
  itemsize := 2
  data := 12288

/-- The default instantiation `AclOpRunner<8, 8, getAclDataType>`. -/
def defaultArgs : TemplateArgs := {}

/-- A freshly constructed default runner on zeroed storage. -/
def emptyRunner : AclOpRunner := ctor defaultArgs freshVendor zeroStorage "Add"

/-- The state reached from `r` by a populating sequence under `freshVendor` (the state at
the abort if it aborts). -/
def stateAfter (T : TemplateArgs) (calls : List Call) (r : AclOpRunner) : AclOpRunner :=
  match populate T freshVendor calls r with
  | .returned r' => r'
  | .aborted _ r' => r'

/-- A default runner all of whose eight input slots have been filled. -/
def fullRunner : AclOpRunner :=
  stateAfter defaultArgs (List.replicate 8 (.addInput (-1) (some matrixTensor) .ACL_FORMAT_ND))
    emptyRunner

/-- The empty default runner after `addInput` of the 0-dimensional tensor. -/
def scalarInputAdded : AclOpRunner :=
  stateAfter defaultArgs [.addInput (-1) (some scalarTensor) .ACL_FORMAT_ND] emptyRunner

/-- The empty default runner after `addOutput` of the 0-dimensional tensor. -/
def scalarOutputAdded : AclOpRunner :=
  stateAfter defaultArgs [.addOutput (-1) (some scalarTensor) .ACL_FORMAT_ND] emptyRunner

/-- The instantiation `AclOpRunner<2, 1, getAclDataType>`. -/
def tightArgs : TemplateArgs := { InputSize := 2, OutputSize := 1 }

/-- Two inputs and one output, positions not given, the output added between the inputs. -/
def twoInOneOut : List Call :=
  [.addInput (-1) (some matrixTensor) .ACL_FORMAT_ND,
   .addOutput (-1) (some scalarTensor) .ACL_FORMAT_ND,
   .addInput (-1) (some matrixTensor) (getAclDataFormat matrixTensor)]

/-- A context whose stream handle is 77. -/
def someContext : diopiContext := { stream := 77 }

/-- The default runner after `twoInOneOut`. -/
def populatedDefault : AclOpRunner := stateAfter defaultArgs twoInOneOut emptyRunner

/-- The runner `AclOpRunner<2, 1>` after `twoInOneOut`. -/
def populatedTight : AclOpRunner :=
  stateAfter tightArgs twoInOneOut (ctor tightArgs freshVendor zeroStorage "Add")

/-- A default runner constructed on `staleStorage`. -/
def staleRunner : AclOpRunner := ctor defaultArgs freshVendor staleStorage "Add"

/-- Two adds naming input position 0. -/
def overwritingCalls : List Call :=
  [.addInput 0 (some matrixTensor) .ACL_FORMAT_ND,
   .addInput 0 (some scalarTensor) .ACL_FORMAT_ND]

/-- The slot written by a populating call holds a null descriptor before the call. -/
def Call.targetsFreeSlot (T : TemplateArgs) (c : Call) (r : AclOpRunner) : Bool :=
  match c with
  | .addInput index _ _ =>
    decide (r.inputDescs_.getD (finalIndex r.inputDescs_ T.InputSize index).toNat nullptr
      = nullptr)
  | .addOutput index _ _ =>
    decide (r.outputDescs_.getD (finalIndex r.outputDescs_ T.OutputSize index).toNat nullptr
      = nullptr)

/-- No call of the populating sequence writes a slot that is already occupied. -/
def noOverwrite (T : TemplateArgs) (V : Vendor) : List Call → AclOpRunner → Bool
  | [], _ => true
  | c :: cs, r =>
    c.targetsFreeSlot T r &&
      match c.exec T V r with
      | .returned r' => noOverwrite T V cs r'
      | .aborted _ _ => true

/-- Every handle created so far is held in a slot: a descriptor in a descriptor slot, a
buffer in the buffer slot of an occupied position. -/
def Owned (r : AclOpRunner) : Prop :=
  (∀ dt n dims format p, p ≠ nullptr →
    AclCall.aclCreateTensorDesc dt n dims format p ∈ r.trace →
    ∃ i : Nat, r.inputDescs_[i]? = some p ∨ r.outputDescs_[i]? = some p) ∧
  (∀ data size p, p ≠ nullptr → AclCall.aclCreateDataBuffer data size p ∈ r.trace →
    ∃ i : Nat, (r.inputDescs_.getD i nullptr ≠ nullptr ∧ r.inputBuffers_[i]? = some p) ∨
      (r.outputDescs_.getD i nullptr ≠ nullptr ∧ r.outputBuffers_[i]? = some p))

/-- The vendor calls of a variadic `addInput` that stores every tensor: for each tensor,
in argument order, the create-descriptor call and the create-buffer call, with the
handles they returned. -/
def variadicCalls (T : TemplateArgs) : List Tensor → List (Ptr × Ptr) → List AclCall
  | t :: ts, h :: hs =>
    (match T.dtypeCastStrategy t with
      | .ok dt =>
        [.aclCreateTensorDesc dt (tensorDims t).length (tensorDims t) (getAclDataFormat t) h.1,
         .aclCreateDataBuffer t.data (bufferSize t) h.2]
      | .error _ => []) ++ variadicCalls T ts hs
  | _, _ => []

/-- Adds naming positions, none of them occupied. -/
def sparseCalls : List Call :=
  [.addInput 3 (some matrixTensor) .ACL_FORMAT_ND,
   .addInput (-1) (some scalarTensor) .ACL_FORMAT_ND,
   .addOutput 1 (some matrixTensor) .ACL_FORMAT_NCHW]

/-- The default runner after `sparseCalls`. -/
def populatedSparse : AclOpRunner := stateAfter defaultArgs sparseCalls emptyRunner

/-- The default runner with input slots 0 and 2 occupied. -/
def gappedRunner : AclOpRunner :=
  stateAfter defaultArgs
    [.addInput 0 (some matrixTensor) .ACL_FORMAT_ND,
     .addInput 2 (some matrixTensor) .ACL_FORMAT_ND] emptyRunner

/-- The state `gappedRunner` after the variadic `addInput(scalarTensor, matrixTensor)`. -/
def gappedFilled : AclOpRunner :=
  match addInputVariadic defaultArgs freshVendor (some scalarTensor) [some matrixTensor]
      gappedRunner with
  | .returned r => r
  | .aborted _ r => r

/-- The three-character `std::string` made of `a`, NUL and `b`. -/
def nulName : String := ⟨['a', NUL, 'b']⟩

end AclOpRunner

/-! ## Dtype and format mapping: properties -/

/-- C1: each of the twelve supported element types is mapped to the corresponding vendor
type, whatever the rest of the tensor is, and every other element-type value makes
`getAclDataType` abort instead of returning a type. -/
theorem getAclDataType_supported_or_abort :
    (∀ t : Tensor, getAclDataType { t with dtype := .diopi_dtype_float16 } = .ok .ACL_FLOAT16) ∧
    (∀ t : Tensor, getAclDataType { t with dtype := .diopi_dtype_float32 } = .ok .ACL_FLOAT) ∧
    (∀ t : Tensor, getAclDataType { t with dtype := .diopi_dtype_float64 } = .ok .ACL_DOUBLE) ∧
    (∀ t : Tensor, getAclDataType { t with dtype := .diopi_dtype_int8 } = .ok .ACL_INT8) ∧
    (∀ t : Tensor, getAclDataType { t with dtype := .diopi_dtype_uint8 } = .ok .ACL_UINT8) ∧
    (∀ t : Tensor, getAclDataType { t with dtype := .diopi_dtype_int16 } = .ok .ACL_INT16) ∧
    (∀ t : Tensor, getAclDataType { t with dtype := .diopi_dtype_uint16 } = .ok .ACL_UINT16) ∧
    (∀ t : Tensor, getAclDataType { t with dtype := .diopi_dtype_int32 } = .ok .ACL_INT32) ∧
    (∀ t : Tensor, getAclDataType { t with dtype := .diopi_dtype_uint32 } = .ok .ACL_UINT32) ∧
    (∀ t : Tensor, getAclDataType { t with dtype := .diopi_dtype_int64 } = .ok .ACL_INT64) ∧
    (∀ t : Tensor, getAclDataType { t with dtype := .diopi_dtype_uint64 } = .ok .ACL_UINT64) ∧
    (∀ t : Tensor, getAclDataType { t with dtype := .diopi_dtype_bool } = .ok .ACL_BOOL) ∧
    (∀ (t : Tensor) (code : Nat),
      getAclDataType { t with dtype := .unlisted code } = .error .unsupportedDtype) := by
  refine ⟨?_, ?_, ?_, ?_, ?_, ?_, ?_, ?_, ?_, ?_, ?_, ?_, ?_⟩ <;> intros <;> rfl

/-- C10: `getAclDataFormat` returns the 4D tag exactly when the shape has 4 dimensions and
the generic tag exactly when it has any other number of dimensions; the dimension values
and the strides play no role. -/
theorem getAclDataFormat_by_rank (t : Tensor) :
    (getAclDataFormat t = .ACL_FORMAT_NCHW ↔ t.shape.length = 4) ∧
    (getAclDataFormat t = .ACL_FORMAT_ND ↔ t.shape.length ≠ 4) := by
  unfold getAclDataFormat
  by_cases h : t.shape.length = 4 <;> simp [h]

namespace AclOpRunner

/-! ## Attributes -/

theorem c_str_eq_self (s : String) (h : NUL ∉ s.data) : c_str s = s := by
  have htw : s.data.takeWhile (fun c => decide (c ≠ NUL)) = s.data := by
    rw [List.takeWhile_eq_self_iff]
    intro c hc
    have hne : c ≠ NUL := fun hcn => h (hcn ▸ hc)
    simpa using hne
  unfold c_str
  rw [htw]

/-- C9 (amended): `setAttr` with an `int64_t` or `int` value issues exactly one
`aclopSetAttrInt` call, with a `float` value one `aclopSetAttrFloat` call, with a `bool`
value one `aclopSetAttrBool` call (`true` as 1, `false` as 0; a `uint8_t` value goes to the
same setter unchanged), with a `std::string` value one `aclopSetAttrString` call, each on
the runner's attribute set and with no other vendor call; any other value type aborts
with no vendor call.  The name, and a string value, are passed as C strings: they reach
the setter up to their first NUL character, hence whole when they hold none.  The vector
overload issues exactly one `aclopSetAttrListInt` call whose count is the number of given
elements and whose elements are the given ones in order, each converted to `int64_t` (the
value in the signed 64-bit range congruent to it modulo 2^64). -/
theorem setAttr_reaches_matching_setter (attrName : String) (r : AclOpRunner) :
    (∀ v : Int, setAttr attrName (.int64_t v) r
      = .returned { r with
          trace := r.trace ++ [.aclopSetAttrInt r.attr_ (c_str attrName) v] }) ∧
    (∀ v : Int, setAttr attrName (.int v) r
      = .returned { r with
          trace := r.trace ++ [.aclopSetAttrInt r.attr_ (c_str attrName) v] }) ∧
    (∀ bits : Nat, setAttr attrName (.float bits) r
      = .returned { r with
          trace := r.trace ++ [.aclopSetAttrFloat r.attr_ (c_str attrName) bits] }) ∧
    (∀ b : Bool, setAttr attrName (.bool b) r
      = .returned { r with
          trace := r.trace ++
            [.aclopSetAttrBool r.attr_ (c_str attrName) (if b then 1 else 0)] }) ∧
    (∀ v : Nat, setAttr attrName (.uint8_t v) r
      = .returned { r with
          trace := r.trace ++ [.aclopSetAttrBool r.attr_ (c_str attrName) v] }) ∧
    (∀ v : String, setAttr attrName (.string v) r
      = .returned { r with
          trace := r.trace ++ [.aclopSetAttrString r.attr_ (c_str attrName) (c_str v)] }) ∧
    setAttr attrName .otherType r = .aborted .noSpecialization r ∧
    (∀ value : List Int, ∃ vec : List Int,
      setAttrVector attrName value r
        = .returned { r with
            trace := r.trace ++
              [.aclopSetAttrListInt r.attr_ (c_str attrName) value.length vec] } ∧
      vec.length = value.length ∧
      ∀ i : Fin value.length, ∃ w : Int,
        vec[i.val]? = some w ∧ -2 ^ 63 ≤ w ∧ w < 2 ^ 63 ∧ (w - value[i]) % 2 ^ 64 = 0) ∧
    (∀ s : String, NUL ∉ s.data → c_str s = s) ∧
    (∀ s : String, (c_str s).data = s.data.takeWhile (fun c => decide (c ≠ NUL))) := by
  refine ⟨fun _ => rfl, fun _ => rfl, fun _ => rfl, fun _ => rfl, fun _ => rfl, fun _ => rfl,
    rfl, ?_, c_str_eq_self, fun _ => rfl⟩
  intro value
  refine ⟨value.map toInt64, ?_, by simp, ?_⟩
  · simp [setAttrVector]
  · intro i
    refine ⟨toInt64 value[i], by simp, ?_, ?_, ?_⟩ <;> unfold toInt64 <;> omega

/-- Instance of C9 (amended): the NUL-free name `axis` and the NUL-free value `NCHW` reach
the string setter whole. -/
theorem setAttr_reaches_matching_setter_witness :
    (NUL ∉ "axis".data ∧ NUL ∉ "NCHW".data) ∧
    setAttr "axis" (.string "NCHW") emptyRunner
      = .returned { emptyRunner with
          trace := emptyRunner.trace ++ [.aclopSetAttrString emptyRunner.attr_ "axis" "NCHW"] } :=
  have h := setAttr_reaches_matching_setter "axis" emptyRunner
  have hn : NUL ∉ "axis".data := by decide
  have hv : NUL ∉ "NCHW".data := by decide
  ⟨⟨hn, hv⟩, by
    have e := h.2.2.2.2.2.1 "NCHW"
    rw [h.2.2.2.2.2.2.2.2.1 "axis" hn, h.2.2.2.2.2.2.2.2.1 "NCHW" hv] at e
    exact e⟩

/-- C9 (as stated, refuted): `setAttr` with the name `a`-NUL-`b` and the integer 5 calls
the integer setter with the name `a`, which is not the given name. -/
theorem setAttr_truncates_name_at_nul :
    setAttr nulName (.int 5) emptyRunner
      = .returned { emptyRunner with
          trace := emptyRunner.trace ++ [.aclopSetAttrInt emptyRunner.attr_ "a" 5] } ∧
    nulName ≠ "a" ∧
    setAttr nulName (.int 5) emptyRunner
      ≠ .returned { emptyRunner with
          trace := emptyRunner.trace ++ [.aclopSetAttrInt emptyRunner.attr_ nulName 5] } := by
  decide

/-! ## The loops -/

theorem copyShape_eq (shape : List Int) :
    ∀ (fuel i : Nat) (dims : List Int), dims.length = shape.length →
      i + fuel = shape.length → (∀ k, k < i → dims[k]? = shape[k]?) →
      copyShape shape fuel i dims = shape := by
  intro fuel
  induction fuel with
  | zero =>
    intro i dims hlen hi hk
    simp only [copyShape]
    apply List.ext_getElem?
    intro k
    by_cases h : k < i
    · exact hk k h
    · rw [List.getElem?_eq_none (by omega), List.getElem?_eq_none (by omega)]
  | succ fuel ih =>
    intro i dims hlen hi hk
    simp only [copyShape]
    apply ih
    · simp [hlen]
    · omega
    · intro k hk1
      by_cases h : k = i
      · subst h
        rw [List.getElem?_set_self (by omega), List.getD_eq_getElem?_getD,
          List.getElem?_eq_getElem (by omega : k < shape.length)]
        rfl
      · rw [List.getElem?_set_ne (Ne.symm h)]
        exact hk k (by omega)

theorem tensorDims_eq (t : Tensor) :
    tensorDims t = if t.shape = [] ∧ t.numel = 1 then [1] else t.shape := by
  unfold tensorDims
  rw [copyShape_eq t.shape t.shape.length 0 _ (by simp) (by simp) (by simp)]
  cases hs : t.shape with
  | nil => simp
  | cons a l => simp

theorem scanFirstNull_eq (descs : List Ptr) (fin : Int) :
    ∀ (fuel i : Nat), scanFirstNull descs fuel i fin
      = match ((List.range' i fuel).filter
          (fun k => decide (descs.getD k nullptr = nullptr))).head? with
        | some k => (k : Int)
        | none => fin := by
  intro fuel
  induction fuel with
  | zero => intro i; simp [scanFirstNull]
  | succ fuel ih =>
    intro i
    simp only [scanFirstNull, List.range'_succ, List.filter_cons]
    by_cases h : descs.getD i nullptr = nullptr
    · rw [if_pos h, if_pos (decide_eq_true h)]
      rfl
    · rw [if_neg h, if_neg (by simpa using h)]
      exact ih (i + 1)

theorem finalIndex_of_neg (descs : List Ptr) (size : Nat) (index : Int) (h : index < 0) :
    finalIndex descs size index
      = match (freeSlots descs size).head? with
        | some k => (k : Int)
        | none => index := by
  simp only [finalIndex, h, if_true, freeSlots]
  exact scanFirstNull_eq descs index size 0

theorem finalIndex_of_nonneg (descs : List Ptr) (size : Nat) (index : Int) (h : 0 ≤ index) :
    finalIndex descs size index = index := by
  simp [finalIndex, not_lt.mpr h]

theorem mem_freeSlots (descs : List Ptr) (size k : Nat) :
    k ∈ freeSlots descs size ↔ k < size ∧ descs.getD k nullptr = nullptr := by
  simp [freeSlots, List.mem_range'_1]

theorem getD_set_ne (l : List Ptr) (f k : Nat) (p : Ptr) (h : k ≠ f) :
    (l.set f p).getD k nullptr = l.getD k nullptr := by
  simp [List.getD_eq_getElem?_getD, List.getElem?_set_ne (Ne.symm h)]

theorem getD_set_self (l : List Ptr) (f : Nat) (p : Ptr) (h : f < l.length) :
    (l.set f p).getD f nullptr = p := by
  simp [List.getD_eq_getElem?_getD, h]

theorem filter_drop_head {l : List Nat} (hl : l.Nodup) {p q : Nat → Bool} {f : Nat}
    {rest : List Nat} (hp : l.filter p = f :: rest) (hq : q f = false)
    (hpq : ∀ k, k ≠ f → q k = p k) : l.filter q = rest := by
  induction l with
  | nil => simp at hp
  | cons a l ih =>
    rw [List.nodup_cons] at hl
    rw [List.filter_cons] at hp
    rw [List.filter_cons]
    by_cases hpa : p a = true
    · rw [if_pos hpa] at hp
      injection hp with h1 h2
      subst h1
      rw [hq]
      simp only [Bool.false_eq_true, if_false]
      rw [← h2]
      apply List.filter_congr
      intro x hx
      apply hpq
      intro hxa
      exact hl.1 (hxa ▸ hx)
    · rw [if_neg hpa] at hp
      have haf : a ≠ f := by
        intro haf
        have hmem : f ∈ l.filter p := by rw [hp]; exact List.mem_cons_self _ _
        have := (List.mem_filter.mp hmem).2
        exact hpa (haf ▸ this)
      rw [hpq a haf]
      rw [if_neg hpa]
      exact ih hl.2 hp

theorem freeSlots_set_head (descs : List Ptr) (size f : Nat) (rest : List Nat) (p : Ptr)
    (hlen : descs.length = size) (hfree : freeSlots descs size = f :: rest)
    (hp : p ≠ nullptr) : freeSlots (descs.set f p) size = rest := by
  have hf : f < size ∧ descs.getD f nullptr = nullptr := by
    rw [← mem_freeSlots, hfree]; exact List.mem_cons_self _ _
  unfold freeSlots at hfree ⊢
  refine filter_drop_head (List.nodup_range' 0 size) hfree ?_ ?_
  · rw [getD_set_self descs f p (by omega)]
    simp [hp]
  · intro k hk
    rw [getD_set_ne descs f k p hk]

theorem freeSlots_length_le (descs : List Ptr) (size : Nat) :
    (freeSlots descs size).length ≤ size := by
  unfold freeSlots
  calc _ ≤ (List.range' 0 size).length := List.length_filter_le _ _
    _ = size := by simp

theorem countNonNull_eq (descs : List Ptr) :
    ∀ (fuel i n : Nat), countNonNull descs fuel i n
      = n + ((List.range' i fuel).filter
          (fun k => decide (¬ descs.getD k nullptr = nullptr))).length := by
  intro fuel
  induction fuel with
  | zero => intro i n; simp [countNonNull]
  | succ fuel ih =>
    intro i n
    simp only [countNonNull, List.range'_succ, List.filter_cons]
    rw [ih]
    by_cases h : descs.getD i nullptr = nullptr
    · rw [if_neg (by simpa using h), if_neg (by simpa using h)]
    · rw [if_pos h, if_pos (by simpa using h), List.length_cons]
      omega

theorem countNonNull_add_freeSlots (descs : List Ptr) (size : Nat) :
    countNonNull descs size 0 0 + (freeSlots descs size).length = size := by
  rw [countNonNull_eq]
  unfold freeSlots
  have h := List.length_eq_countP_add_countP
    (fun k => decide (descs.getD k nullptr = nullptr)) (List.range' 0 size)
  simp only [List.countP_eq_length_filter, List.length_range'] at h
  simp only [decide_not, Nat.zero_add]
  simp only [decide_eq_true_eq, decide_not] at h
  omega

/-! ## One add -/

theorem addInput_returned_iff (T : TemplateArgs) (V : Vendor) (index : Int)
    (th : diopiConstTensorHandle_t) (format : aclFormat) (r r' : AclOpRunner) :
    addInput T V index th format r = .returned r' ↔
      ∃ (t : Tensor) (dt : aclDataType) (f : Nat), th = some t ∧
        finalIndex r.inputDescs_ T.InputSize index = (f : Int) ∧ f < T.InputSize ∧
        T.dtypeCastStrategy t = .ok dt ∧ newDesc V r dt t format ≠ nullptr ∧
        r' = storedInput V r dt t format f := by
  constructor
  · intro h
    cases th with
    | none => simp [addInput] at h
    | some t =>
      simp only [addInput] at h
      split at h
      · rename_i hr
        split at h
        · simp at h
        · rename_i dt hdt
          split at h
          · simp at h
          · rename_i hd
            refine ⟨t, dt, (finalIndex r.inputDescs_ T.InputSize index).toNat, rfl, ?_, ?_,
              hdt, hd, ?_⟩
            · exact (Int.toNat_of_nonneg hr.1).symm
            · have := hr.2; omega
            · injection h with h
              rw [← h]
              simp [storedInput, newDesc, newBuffer, descCall, bufferCall]
      · simp at h
  · rintro ⟨t, dt, f, rfl, hf, hlt, hdt, hd, rfl⟩
    have hd' : ¬ V.aclCreateTensorDesc r.trace dt (tensorDims t).length (tensorDims t) format
        = nullptr := hd
    simp only [addInput, hf, hdt]
    rw [if_pos ⟨by omega, by omega⟩, if_neg hd']
    simp [storedInput, newDesc, newBuffer, descCall, bufferCall]

theorem addOutput_returned_iff (T : TemplateArgs) (V : Vendor) (index : Int)
    (th : diopiTensorHandle_t) (format : aclFormat) (r r' : AclOpRunner) :
    addOutput T V index th format r = .returned r' ↔
      ∃ (t : Tensor) (dt : aclDataType) (f : Nat), th = some t ∧
        finalIndex r.outputDescs_ T.OutputSize index = (f : Int) ∧ f < T.OutputSize ∧
        T.dtypeCastStrategy t = .ok dt ∧ newDesc V r dt t format ≠ nullptr ∧
        r' = storedOutput V r dt t format f := by
  constructor
  · intro h
    cases th with
    | none => simp [addOutput] at h
    | some t =>
      simp only [addOutput] at h
      split at h
      · rename_i hr
        split at h
        · simp at h
        · rename_i dt hdt
          split at h
          · simp at h
          · rename_i hd
            refine ⟨t, dt, (finalIndex r.outputDescs_ T.OutputSize index).toNat, rfl, ?_, ?_,
              hdt, hd, ?_⟩
            · exact (Int.toNat_of_nonneg hr.1).symm
            · have := hr.2; omega
            · injection h with h
              rw [← h]
              simp [storedOutput, newDesc, newBuffer, descCall, bufferCall]
      · simp at h
  · rintro ⟨t, dt, f, rfl, hf, hlt, hdt, hd, rfl⟩
    have hd' : ¬ V.aclCreateTensorDesc r.trace dt (tensorDims t).length (tensorDims t) format
        = nullptr := hd
    simp only [addOutput, hf, hdt]
    rw [if_pos ⟨by omega, by omega⟩, if_neg hd']
    simp [storedOutput, newDesc, newBuffer, descCall, bufferCall]

/-! ## Construction -/

theorem ctor_inputDescs (T : TemplateArgs) (V : Vendor) (raw : RawStorage) (opname : String) :
    (ctor T V raw opname).inputDescs_ = List.replicate T.InputSize nullptr := by
  simp [ctor, fill]

theorem ctor_inputBuffers (T : TemplateArgs) (V : Vendor) (raw : RawStorage)
    (opname : String) :
    (ctor T V raw opname).inputBuffers_ = List.replicate T.InputSize nullptr := by
  simp [ctor, fill]

theorem ctor_outputDescs (T : TemplateArgs) (V : Vendor) (raw : RawStorage)
    (opname : String) :
    (ctor T V raw opname).outputDescs_ = List.replicate T.OutputSize nullptr := by
  simp [ctor, fill]

theorem ctor_outputBuffers (T : TemplateArgs) (V : Vendor) (raw : RawStorage)
    (opname : String) :
    (ctor T V raw opname).outputBuffers_ = (List.range T.OutputSize).map raw.outputBuffers := by
  simp [ctor]

theorem ctor_wellSized (T : TemplateArgs) (V : Vendor) (raw : RawStorage) (opname : String) :
    WellSized T (ctor T V raw opname) := by
  simp [WellSized, ctor, fill]

theorem freeSlots_replicate (size : Nat) :
    freeSlots (List.replicate size nullptr) size = List.range' 0 size := by
  unfold freeSlots
  rw [List.filter_eq_self]
  intro k hk
  rw [List.mem_range'_1] at hk
  have hk2 : k < size := by omega
  simp [List.getD_eq_getElem?_getD, List.getElem?_replicate, hk2]

theorem freeSlots_eq_nil (descs : List Ptr) (size : Nat) (hlen : descs.length = size)
    (hfull : ∀ p ∈ descs, p ≠ nullptr) : freeSlots descs size = [] := by
  unfold freeSlots
  rw [List.filter_eq_nil_iff]
  intro k hk
  rw [List.mem_range'_1] at hk
  have hk' : k < descs.length := by omega
  rw [List.getD_eq_getElem descs nullptr hk']
  simpa using hfull _ (List.getElem_mem hk')

/-! ## Aborting adds -/

/-- C2: when all `InputSize` input slots are occupied, `addInput` without a position
(any `index < 0`) on a non-null tensor aborts at the bounds check, before any vendor call;
the state at the abort is the state before the call, so no descriptor or buffer is
stored. -/
theorem addInput_aborts_when_full (T : TemplateArgs) (V : Vendor) (index : Int) (t : Tensor)
    (format : aclFormat) (r : AclOpRunner) (hindex : index < 0)
    (hlen : r.inputDescs_.length = T.InputSize)
    (hfull : ∀ p ∈ r.inputDescs_, p ≠ nullptr) :
    addInput T V index (some t) format r = .aborted .indexRange r := by
  have hfi : finalIndex r.inputDescs_ T.InputSize index = index := by
    rw [finalIndex_of_neg _ _ _ hindex, freeSlots_eq_nil _ _ hlen hfull]
    rfl
  simp only [addInput, hfi]
  rw [if_neg (by omega)]

/-- Instance of C2: the default runner with all eight input slots filled rejects a ninth
input. -/
theorem addInput_aborts_when_full_witness :
    ((-1 : Int) < 0 ∧ fullRunner.inputDescs_.length = defaultArgs.InputSize ∧
      ∀ p ∈ fullRunner.inputDescs_, p ≠ nullptr) ∧
    addInput defaultArgs freshVendor (-1) (some matrixTensor) .ACL_FORMAT_ND fullRunner
      = .aborted .indexRange fullRunner :=
  ⟨⟨by decide, by decide, by decide⟩,
    addInput_aborts_when_full defaultArgs freshVendor (-1) matrixTensor .ACL_FORMAT_ND
      fullRunner (by decide) (by decide) (by decide)⟩

theorem add_negative_index_eq (descs : List Ptr) (size : Nat) (k : Int) (hk : k < 0) :
    (0 ≤ finalIndex descs size k ∧ finalIndex descs size k < (size : Int)
      ∧ finalIndex descs size k = finalIndex descs size (-1)) ∨
    (¬ (0 ≤ finalIndex descs size k ∧ finalIndex descs size k < (size : Int))
      ∧ ¬ (0 ≤ finalIndex descs size (-1) ∧ finalIndex descs size (-1) < (size : Int))) := by
  rw [finalIndex_of_neg _ _ _ hk, finalIndex_of_neg _ _ _ (by decide : (-1 : Int) < 0)]
  cases hfree : freeSlots descs size with
  | nil =>
    right
    simp only [List.head?_nil]
    omega
  | cons f rest =>
    have hf : f < size := by
      have : f ∈ freeSlots descs size := by rw [hfree]; exact List.mem_cons_self _ _
      exact ((mem_freeSlots descs size f).mp this).1
    left
    simp only [List.head?_cons]
    exact ⟨by omega, by omega, trivial⟩

/-- C5 (amended): for every non-null tensor, `addInput` with a position `i >= InputSize`
and `addOutput` with a position `j >= OutputSize` abort at the bounds check with the state
untouched (nothing stored, no vendor call); every negative position, not only -1, stands
for "no position given": the call does exactly what the call with -1 does. -/
theorem add_aborts_beyond_capacity (T : TemplateArgs) (V : Vendor) (i j : Int) (t : Tensor)
    (format : aclFormat) (r : AclOpRunner) (hi : (T.InputSize : Int) ≤ i)
    (hj : (T.OutputSize : Int) ≤ j) :
    addInput T V i (some t) format r = .aborted .indexRange r ∧
    addOutput T V j (some t) format r = .aborted .indexRange r ∧
    (∀ k : Int, k < 0 →
      addInput T V k (some t) format r = addInput T V (-1) (some t) format r ∧
      addOutput T V k (some t) format r = addOutput T V (-1) (some t) format r) := by
  refine ⟨?_, ?_, ?_⟩
  · have h0 : (0 : Int) ≤ i := by omega
    simp only [addInput, finalIndex_of_nonneg _ _ _ h0]
    rw [if_neg (by omega)]
  · have h0 : (0 : Int) ≤ j := by omega
    simp only [addOutput, finalIndex_of_nonneg _ _ _ h0]
    rw [if_neg (by omega)]
  · intro k hk
    constructor
    · simp only [addInput]
      rcases add_negative_index_eq r.inputDescs_ T.InputSize k hk with h | h
      · rw [h.2.2]
      · rw [if_neg h.1, if_neg h.2]
    · simp only [addOutput]
      rcases add_negative_index_eq r.outputDescs_ T.OutputSize k hk with h | h
      · rw [h.2.2]
      · rw [if_neg h.1, if_neg h.2]

/-- Instance of C5 (amended) on the empty default runner: positions 8 and 9 abort, and
position -2 behaves as position -1. -/
theorem add_aborts_beyond_capacity_witness :
    ((defaultArgs.InputSize : Int) ≤ 8 ∧ (defaultArgs.OutputSize : Int) ≤ 9) ∧
    addInput defaultArgs freshVendor 8 (some matrixTensor) .ACL_FORMAT_ND emptyRunner
      = .aborted .indexRange emptyRunner ∧
    addOutput defaultArgs freshVendor 9 (some matrixTensor) .ACL_FORMAT_ND emptyRunner
      = .aborted .indexRange emptyRunner ∧
    addInput defaultArgs freshVendor (-2) (some matrixTensor) .ACL_FORMAT_ND emptyRunner
      = addInput defaultArgs freshVendor (-1) (some matrixTensor) .ACL_FORMAT_ND emptyRunner :=
  have h := add_aborts_beyond_capacity defaultArgs freshVendor 8 9 matrixTensor
    .ACL_FORMAT_ND emptyRunner (by decide) (by decide)
  ⟨⟨by decide, by decide⟩, h.1, h.2.1, (h.2.2 (-2) (by decide)).1⟩

/-- C5 (as stated, refuted): on the empty default runner, `addInput` with the negative
position -2 and a non-null tensor does not abort; it stores the descriptor and the buffer
in slot 0. -/
theorem addInput_negative_position_stores :
    addInput defaultArgs freshVendor (-2) (some matrixTensor) .ACL_FORMAT_ND emptyRunner
      = .returned { emptyRunner with
          inputDescs_ := [2, 0, 0, 0, 0, 0, 0, 0]
          inputBuffers_ := [3, 0, 0, 0, 0, 0, 0, 0]
          trace := emptyRunner.trace ++
            [.aclCreateTensorDesc .ACL_FLOAT 2 [2, 3] .ACL_FORMAT_ND 2,
             .aclCreateDataBuffer 4096 24 3] } := by
  decide

/-! ## The stored descriptor -/

/-- C6: when `addInput` or `addOutput` adds a tensor, the descriptor stored in the chosen
slot is the one returned by a create-descriptor call whose dimension list is the shape of
the tensor, element for element, except that a 0-dimensional tensor with one element gives
`[1]`; the rank passed is the length of that list. -/
theorem added_descriptor_dims (T : TemplateArgs) (V : Vendor) (index : Int) (t : Tensor)
    (format : aclFormat) (r r' : AclOpRunner) (hsize : WellSized T r) :
    (addInput T V index (some t) format r = .returned r' →
      ∃ (dt : aclDataType) (dims : List Int) (desc buffer : Ptr) (f : Nat),
        dims = (if t.shape = [] ∧ t.numel = 1 then [1] else t.shape) ∧
        r'.trace = r.trace ++ [.aclCreateTensorDesc dt dims.length dims format desc,
          .aclCreateDataBuffer t.data (bufferSize t) buffer] ∧
        desc ≠ nullptr ∧ r'.inputDescs_[f]? = some desc ∧
        r'.inputBuffers_[f]? = some buffer) ∧
    (addOutput T V index (some t) format r = .returned r' →
      ∃ (dt : aclDataType) (dims : List Int) (desc buffer : Ptr) (f : Nat),
        dims = (if t.shape = [] ∧ t.numel = 1 then [1] else t.shape) ∧
        r'.trace = r.trace ++ [.aclCreateTensorDesc dt dims.length dims format desc,
          .aclCreateDataBuffer t.data (bufferSize t) buffer] ∧
        desc ≠ nullptr ∧ r'.outputDescs_[f]? = some desc ∧
        r'.outputBuffers_[f]? = some buffer) := by
  obtain ⟨h1, h2, h3, h4⟩ := hsize
  constructor
  · intro h
    obtain ⟨t', dt, f, ht, -, hf, -, hd, rfl⟩ := (addInput_returned_iff _ _ _ _ _ _ _).mp h
    injection ht with ht
    subst ht
    refine ⟨dt, tensorDims t, newDesc V r dt t format, newBuffer V r dt t format, f,
      tensorDims_eq t, rfl, hd, ?_, ?_⟩
    · simp only [storedInput]
      exact List.getElem?_set_self (by omega)
    · simp only [storedInput]
      exact List.getElem?_set_self (by omega)
  · intro h
    obtain ⟨t', dt, f, ht, -, hf, -, hd, rfl⟩ := (addOutput_returned_iff _ _ _ _ _ _ _).mp h
    injection ht with ht
    subst ht
    refine ⟨dt, tensorDims t, newDesc V r dt t format, newBuffer V r dt t format, f,
      tensorDims_eq t, rfl, hd, ?_, ?_⟩
    · simp only [storedOutput]
      exact List.getElem?_set_self (by omega)
    · simp only [storedOutput]
      exact List.getElem?_set_self (by omega)

/-- Instance of C6: the 0-dimensional one-element tensor is described with the dimension
list `[1]`, as an input and as an output. -/
theorem added_descriptor_dims_witness :
    WellSized defaultArgs emptyRunner ∧
    (∃ (dt : aclDataType) (dims : List Int) (desc buffer : Ptr) (f : Nat),
      dims = [1] ∧
      scalarInputAdded.trace = emptyRunner.trace ++
        [.aclCreateTensorDesc dt dims.length dims .ACL_FORMAT_ND desc,
         .aclCreateDataBuffer scalarTensor.data (bufferSize scalarTensor) buffer] ∧
      desc ≠ nullptr ∧ scalarInputAdded.inputDescs_[f]? = some desc ∧
      scalarInputAdded.inputBuffers_[f]? = some buffer) ∧
    (∃ (dt : aclDataType) (dims : List Int) (desc buffer : Ptr) (f : Nat),
      dims = [1] ∧
      scalarOutputAdded.trace = emptyRunner.trace ++
        [.aclCreateTensorDesc dt dims.length dims .ACL_FORMAT_ND desc,
         .aclCreateDataBuffer scalarTensor.data (bufferSize scalarTensor) buffer] ∧
      desc ≠ nullptr ∧ scalarOutputAdded.outputDescs_[f]? = some desc ∧
      scalarOutputAdded.outputBuffers_[f]? = some buffer) :=
  ⟨ctor_wellSized defaultArgs freshVendor zeroStorage "Add",
    (added_descriptor_dims defaultArgs freshVendor (-1) scalarTensor .ACL_FORMAT_ND
      emptyRunner scalarInputAdded
      (ctor_wellSized defaultArgs freshVendor zeroStorage "Add")).1 (by decide),
    (added_descriptor_dims defaultArgs freshVendor (-1) scalarTensor .ACL_FORMAT_ND
      emptyRunner scalarOutputAdded
      (ctor_wellSized defaultArgs freshVendor zeroStorage "Add")).2 (by decide)⟩

/-! ## Adds without a position -/

theorem addInput_auto_step (T : TemplateArgs) (V : Vendor) (index : Int)
    (th : diopiConstTensorHandle_t) (format : aclFormat) (r r' : AclOpRunner)
    (hindex : index < 0) (hlen : r.inputDescs_.length = T.InputSize)
    (h : addInput T V index th format r = .returned r') :
    ∃ (t : Tensor) (dt : aclDataType) (f : Nat) (rest : List Nat), th = some t ∧
      freeSlots r.inputDescs_ T.InputSize = f :: rest ∧
      T.dtypeCastStrategy t = .ok dt ∧ newDesc V r dt t format ≠ nullptr ∧
      r' = storedInput V r dt t format f ∧
      freeSlots r'.inputDescs_ T.InputSize = rest := by
  obtain ⟨t, dt, f, ht, hfi, hf, hdt, hd, rfl⟩ := (addInput_returned_iff _ _ _ _ _ _ _).mp h
  rw [finalIndex_of_neg _ _ _ hindex] at hfi
  cases hfree : freeSlots r.inputDescs_ T.InputSize with
  | nil =>
    rw [hfree] at hfi
    simp only [List.head?_nil] at hfi
    omega
  | cons f' rest =>
    rw [hfree] at hfi
    simp only [List.head?_cons] at hfi
    have hff : f' = f := by omega
    subst hff
    exact ⟨t, dt, f', rest, ht, rfl, hdt, hd, rfl,
      freeSlots_set_head _ _ _ _ _ hlen hfree hd⟩

theorem addOutput_auto_step (T : TemplateArgs) (V : Vendor) (index : Int)
    (th : diopiTensorHandle_t) (format : aclFormat) (r r' : AclOpRunner)
    (hindex : index < 0) (hlen : r.outputDescs_.length = T.OutputSize)
    (h : addOutput T V index th format r = .returned r') :
    ∃ (t : Tensor) (dt : aclDataType) (f : Nat) (rest : List Nat), th = some t ∧
      freeSlots r.outputDescs_ T.OutputSize = f :: rest ∧
      T.dtypeCastStrategy t = .ok dt ∧ newDesc V r dt t format ≠ nullptr ∧
      r' = storedOutput V r dt t format f ∧
      freeSlots r'.outputDescs_ T.OutputSize = rest := by
  obtain ⟨t, dt, f, ht, hfi, hf, hdt, hd, rfl⟩ := (addOutput_returned_iff _ _ _ _ _ _ _).mp h
  rw [finalIndex_of_neg _ _ _ hindex] at hfi
  cases hfree : freeSlots r.outputDescs_ T.OutputSize with
  | nil =>
    rw [hfree] at hfi
    simp only [List.head?_nil] at hfi
    omega
  | cons f' rest =>
    rw [hfree] at hfi
    simp only [List.head?_cons] at hfi
    have hff : f' = f := by omega
    subst hff
    exact ⟨t, dt, f', rest, ht, rfl, hdt, hd, rfl,
      freeSlots_set_head _ _ _ _ _ hlen hfree hd⟩

theorem storedInput_wellSized (T : TemplateArgs) (V : Vendor) (r : AclOpRunner)
    (dt : aclDataType) (t : Tensor) (format : aclFormat) (f : Nat) (h : WellSized T r) :
    WellSized T (storedInput V r dt t format f) := by
  simpa [WellSized, storedInput] using h

theorem storedOutput_wellSized (T : TemplateArgs) (V : Vendor) (r : AclOpRunner)
    (dt : aclDataType) (t : Tensor) (format : aclFormat) (f : Nat) (h : WellSized T r) :
    WellSized T (storedOutput V r dt t format f) := by
  simpa [WellSized, storedOutput] using h

theorem addInput_auto_stores (T : TemplateArgs) (V : Vendor) (index : Int) (t : Tensor)
    (format : aclFormat) (r : AclOpRunner) (f : Nat) (rest : List Nat) (dt : aclDataType)
    (hindex : index < 0) (hfree : freeSlots r.inputDescs_ T.InputSize = f :: rest)
    (hdt : T.dtypeCastStrategy t = .ok dt) (hd : newDesc V r dt t format ≠ nullptr) :
    addInput T V index (some t) format r = .returned (storedInput V r dt t format f) := by
  rw [addInput_returned_iff]
  have hf : f < T.InputSize := by
    have : f ∈ freeSlots r.inputDescs_ T.InputSize := by
      rw [hfree]; exact List.mem_cons_self _ _
    exact ((mem_freeSlots _ _ _).mp this).1
  refine ⟨t, dt, f, rfl, ?_, hf, hdt, hd, rfl⟩
  rw [finalIndex_of_neg _ _ _ hindex, hfree]
  rfl

theorem addOutput_auto_stores (T : TemplateArgs) (V : Vendor) (index : Int) (t : Tensor)
    (format : aclFormat) (r : AclOpRunner) (f : Nat) (rest : List Nat) (dt : aclDataType)
    (hindex : index < 0) (hfree : freeSlots r.outputDescs_ T.OutputSize = f :: rest)
    (hdt : T.dtypeCastStrategy t = .ok dt) (hd : newDesc V r dt t format ≠ nullptr) :
    addOutput T V index (some t) format r = .returned (storedOutput V r dt t format f) := by
  rw [addOutput_returned_iff]
  have hf : f < T.OutputSize := by
    have : f ∈ freeSlots r.outputDescs_ T.OutputSize := by
      rw [hfree]; exact List.mem_cons_self _ _
    exact ((mem_freeSlots _ _ _).mp this).1
  refine ⟨t, dt, f, rfl, ?_, hf, hdt, hd, rfl⟩
  rw [finalIndex_of_neg _ _ _ hindex, hfree]
  rfl

theorem populate_auto_returns (T : TemplateArgs) (V : Vendor)
    (hvendor : ∀ tr dt n dims format, V.aclCreateTensorDesc tr dt n dims format ≠ nullptr) :
    ∀ (calls : List Call) (r0 : AclOpRunner), WellSized T r0 →
      (∀ c ∈ calls, c.index < 0) →
      (∀ c ∈ calls, ∃ t dt, c.tensor = some t ∧ T.dtypeCastStrategy t = .ok dt) →
      (calls.filter Call.isInput).length ≤ (freeSlots r0.inputDescs_ T.InputSize).length →
      (calls.filter (fun c => !c.isInput)).length
        ≤ (freeSlots r0.outputDescs_ T.OutputSize).length →
      ∃ r, populate T V calls r0 = .returned r := by
  intro calls
  induction calls with
  | nil => intro r0 _ _ _ _ _; exact ⟨r0, rfl⟩
  | cons c cs ih =>
    intro r0 hw hauto hacc hin hout
    have hc0 : c.index < 0 := hauto c (List.mem_cons_self _ _)
    have hcs : ∀ c' ∈ cs, c'.index < 0 := fun c' hc' => hauto c' (List.mem_cons_of_mem _ hc')
    have hacs : ∀ c' ∈ cs, ∃ t dt, c'.tensor = some t ∧ T.dtypeCastStrategy t = .ok dt :=
      fun c' hc' => hacc c' (List.mem_cons_of_mem _ hc')
    obtain ⟨t, dt, ht, hdt⟩ := hacc c (List.mem_cons_self _ _)
    cases c with
    | addInput index th format =>
      simp only [Call.tensor] at ht
      simp only [Call.index] at hc0
      subst ht
      have e1 : Call.isInput (.addInput index (some t) format) = true := rfl
      simp only [List.filter_cons, e1, if_true, List.length_cons, Bool.not_true,
        Bool.false_eq_true, if_false] at hin hout
      cases hfree : freeSlots r0.inputDescs_ T.InputSize with
      | nil => rw [hfree] at hin; simp at hin
      | cons f rest =>
        have hd : newDesc V r0 dt t format ≠ nullptr :=
          hvendor r0.trace dt (tensorDims t).length (tensorDims t) format
        have hstep := addInput_auto_stores T V index t format r0 f rest dt hc0 hfree hdt hd
        have hfree1 := freeSlots_set_head _ _ _ _ _ hw.1 hfree hd
        obtain ⟨r, hr⟩ := ih (storedInput V r0 dt t format f)
          (storedInput_wellSized T V r0 dt t format f hw) hcs hacs
          (by
            simp only [storedInput]
            rw [hfree1]
            rw [hfree] at hin
            simp only [List.length_cons] at hin
            omega)
          (by simpa [storedInput] using hout)
        exact ⟨r, by simp only [populate, Call.exec, hstep, Outcome.andThen]; exact hr⟩
    | addOutput index th format =>
      simp only [Call.tensor] at ht
      simp only [Call.index] at hc0
      subst ht
      have e1 : Call.isInput (.addOutput index (some t) format) = false := rfl
      simp only [List.filter_cons, e1, if_true, List.length_cons, Bool.not_false,
        Bool.false_eq_true, if_false] at hin hout
      cases hfree : freeSlots r0.outputDescs_ T.OutputSize with
      | nil => rw [hfree] at hout; simp at hout
      | cons f rest =>
        have hd : newDesc V r0 dt t format ≠ nullptr :=
          hvendor r0.trace dt (tensorDims t).length (tensorDims t) format
        have hstep := addOutput_auto_stores T V index t format r0 f rest dt hc0 hfree hdt hd
        have hfree1 := freeSlots_set_head _ _ _ _ _ hw.2.2.1 hfree hd
        obtain ⟨r, hr⟩ := ih (storedOutput V r0 dt t format f)
          (storedOutput_wellSized T V r0 dt t format f hw) hcs hacs
          (by simpa [storedOutput] using hin)
          (by
            simp only [storedOutput]
            rw [hfree1]
            rw [hfree] at hout
            simp only [List.length_cons] at hout
            omega)
        exact ⟨r, by simp only [populate, Call.exec, hstep, Outcome.andThen]; exact hr⟩

theorem populate_auto_counts (T : TemplateArgs) (V : Vendor) :
    ∀ (calls : List Call) (r0 r : AclOpRunner), WellSized T r0 →
      (∀ c ∈ calls, c.index < 0) → populate T V calls r0 = .returned r →
      WellSized T r ∧
      countNonNull r.inputDescs_ T.InputSize 0 0
        = countNonNull r0.inputDescs_ T.InputSize 0 0 + (calls.filter Call.isInput).length ∧
      countNonNull r.outputDescs_ T.OutputSize 0 0
        = countNonNull r0.outputDescs_ T.OutputSize 0 0
          + (calls.filter (fun c => !c.isInput)).length := by
  intro calls
  induction calls with
  | nil =>
    intro r0 r hw _ h
    simp only [populate] at h
    injection h with h
    subst h
    exact ⟨hw, by simp, by simp⟩
  | cons c cs ih =>
    intro r0 r hw hauto h
    simp only [populate] at h
    cases hc : c.exec T V r0 with
    | aborted cause r1 => rw [hc] at h; simp [Outcome.andThen] at h
    | returned r1 =>
      rw [hc] at h
      simp only [Outcome.andThen] at h
      have hc0 : c.index < 0 := hauto c (List.mem_cons_self _ _)
      have hcs : ∀ c' ∈ cs, c'.index < 0 := fun c' hc' => hauto c' (List.mem_cons_of_mem _ hc')
      cases c with
      | addInput index th format =>
        simp only [Call.exec] at hc
        obtain ⟨t, dt, f, rest, -, hfree, -, -, hr1, hfree1⟩ :=
          addInput_auto_step T V index th format r0 r1 hc0 hw.1 hc
        have hw1 : WellSized T r1 := hr1 ▸ storedInput_wellSized T V r0 dt t format f hw
        obtain ⟨hwr, hi, ho⟩ := ih r1 r hw1 hcs h
        have e0 := countNonNull_add_freeSlots r0.inputDescs_ T.InputSize
        have e1 := countNonNull_add_freeSlots r1.inputDescs_ T.InputSize
        rw [hfree] at e0
        rw [hfree1] at e1
        have hout : r1.outputDescs_ = r0.outputDescs_ := by rw [hr1]; rfl
        refine ⟨hwr, ?_, ?_⟩
        · rw [hi]
          simp only [List.filter_cons, Call.isInput, if_true, List.length_cons] at e0 ⊢
          omega
        · rw [ho, hout]
          simp [List.filter_cons, Call.isInput]
      | addOutput index th format =>
        simp only [Call.exec] at hc
        obtain ⟨t, dt, f, rest, -, hfree, -, -, hr1, hfree1⟩ :=
          addOutput_auto_step T V index th format r0 r1 hc0 hw.2.2.1 hc
        have hw1 : WellSized T r1 := hr1 ▸ storedOutput_wellSized T V r0 dt t format f hw
        obtain ⟨hwr, hi, ho⟩ := ih r1 r hw1 hcs h
        have e0 := countNonNull_add_freeSlots r0.outputDescs_ T.OutputSize
        have e1 := countNonNull_add_freeSlots r1.outputDescs_ T.OutputSize
        rw [hfree] at e0
        rw [hfree1] at e1
        have hin : r1.inputDescs_ = r0.inputDescs_ := by rw [hr1]; rfl
        refine ⟨hwr, ?_, ?_⟩
        · rw [hi, hin]
          simp [List.filter_cons, Call.isInput]
        · rw [ho]
          simp only [List.filter_cons, Call.isInput, Bool.not_false, if_true,
            List.length_cons] at e0 ⊢
          omega

theorem countNonNull_replicate (size : Nat) :
    countNonNull (List.replicate size nullptr) size 0 0 = 0 := by
  have h := countNonNull_add_freeSlots (List.replicate size nullptr) size
  rw [freeSlots_replicate] at h
  simpa using h

/-- C3: after construction and any populating sequence made of two `addInput` and one
`addOutput` calls without a position (negative index), for every pair of capacities
`InputSize` and `OutputSize`: whenever the three calls all return, `run` issues the
compile-and-execute call with input count 2 and output count 1 (the only further vendor
call is the error-message query made when the status is not `ACL_SUCCESS`); and the three
calls do all return when `InputSize >= 2`, `OutputSize >= 1`, the tensors are non-null with
element types accepted by the dtype strategy and the vendor returns non-null
descriptors. -/
theorem run_passes_two_inputs_one_output (T : TemplateArgs) (V : Vendor) (raw : RawStorage)
    (opname : String) (calls : List Call) (EngineType : aclEngineType)
    (CompileType : aclCompileType) (ctx : diopiContext)
    (hauto : ∀ c ∈ calls, c.index < 0)
    (hin : (calls.filter Call.isInput).length = 2)
    (hout : (calls.filter (fun c => !c.isInput)).length = 1) :
    (∀ r : AclOpRunner, populate T V calls (ctor T V raw opname) = .returned r →
      (run T V EngineType CompileType ctx r).trace
        = r.trace ++
          .aclopCompileAndExecute (c_str r.opname_) 2 r.inputDescs_ r.inputBuffers_ 1
            r.outputDescs_ r.outputBuffers_ r.attr_ EngineType CompileType nullptr ctx.stream
            (V.aclopCompileAndExecute r.trace)
          :: (if V.aclopCompileAndExecute r.trace ≠ .ACL_SUCCESS then [.aclGetRecentErrMsg]
              else [])) ∧
    (2 ≤ T.InputSize → 1 ≤ T.OutputSize →
      (∀ c ∈ calls, ∃ t dt, c.tensor = some t ∧ T.dtypeCastStrategy t = .ok dt) →
      (∀ tr dt n dims format, V.aclCreateTensorDesc tr dt n dims format ≠ nullptr) →
      ∃ r : AclOpRunner, populate T V calls (ctor T V raw opname) = .returned r) := by
  constructor
  · intro r hpop
    obtain ⟨-, hi, ho⟩ := populate_auto_counts T V calls _ r (ctor_wellSized T V raw opname)
      hauto hpop
    rw [ctor_inputDescs, countNonNull_replicate, hin] at hi
    rw [ctor_outputDescs, countNonNull_replicate, hout] at ho
    simp only [run, hi, ho]
    split <;> simp
  · intro h2 h1 hacc hvendor
    apply populate_auto_returns T V hvendor calls _ (ctor_wellSized T V raw opname) hauto hacc
    · rw [ctor_inputDescs, freeSlots_replicate, hin]
      simpa using h2
    · rw [ctor_outputDescs, freeSlots_replicate, hout]
      simpa using h1

/-- Instance of C3 for the capacities (8, 8) and (2, 1). -/
theorem run_passes_two_inputs_one_output_witness :
    ((∀ c ∈ twoInOneOut, c.index < 0) ∧
      (twoInOneOut.filter Call.isInput).length = 2 ∧
      (twoInOneOut.filter (fun c => !c.isInput)).length = 1 ∧
      populate defaultArgs freshVendor twoInOneOut
        (ctor defaultArgs freshVendor zeroStorage "Add") = .returned populatedDefault ∧
      populate tightArgs freshVendor twoInOneOut
        (ctor tightArgs freshVendor zeroStorage "Add") = .returned populatedTight) ∧
    (run defaultArgs freshVendor .ACL_ENGINE_SYS .ACL_COMPILE_SYS someContext
        populatedDefault).trace
      = populatedDefault.trace ++
        .aclopCompileAndExecute (c_str populatedDefault.opname_) 2 populatedDefault.inputDescs_
          populatedDefault.inputBuffers_ 1 populatedDefault.outputDescs_
          populatedDefault.outputBuffers_ populatedDefault.attr_ .ACL_ENGINE_SYS
          .ACL_COMPILE_SYS nullptr someContext.stream
          (freshVendor.aclopCompileAndExecute populatedDefault.trace)
        :: (if freshVendor.aclopCompileAndExecute populatedDefault.trace ≠ .ACL_SUCCESS
            then [.aclGetRecentErrMsg] else []) ∧
    (run tightArgs freshVendor .ACL_ENGINE_SYS .ACL_COMPILE_SYS someContext
        populatedTight).trace
      = populatedTight.trace ++
        .aclopCompileAndExecute (c_str populatedTight.opname_) 2 populatedTight.inputDescs_
          populatedTight.inputBuffers_ 1 populatedTight.outputDescs_
          populatedTight.outputBuffers_ populatedTight.attr_ .ACL_ENGINE_SYS
          .ACL_COMPILE_SYS nullptr someContext.stream
          (freshVendor.aclopCompileAndExecute populatedTight.trace)
        :: (if freshVendor.aclopCompileAndExecute populatedTight.trace ≠ .ACL_SUCCESS
            then [.aclGetRecentErrMsg] else []) :=
  ⟨⟨by decide, by decide, by decide, by decide, by decide⟩,
    (run_passes_two_inputs_one_output defaultArgs freshVendor zeroStorage "Add" twoInOneOut
      .ACL_ENGINE_SYS .ACL_COMPILE_SYS someContext (by decide) (by decide)
      (by decide)).1 populatedDefault (by decide),
    (run_passes_two_inputs_one_output tightArgs freshVendor zeroStorage "Add" twoInOneOut
      .ACL_ENGINE_SYS .ACL_COMPILE_SYS someContext (by decide) (by decide)
      (by decide)).1 populatedTight (by decide)⟩

/-! ## Destruction -/

/-- C4 (the code at the failing input): a default runner is constructed on storage whose
word under `outputBuffers_[0]` is `0xDEAD`, one input is added and the runner is
destroyed.  No output slot was populated and no create call returned `0xDEAD`, yet the
destructor issues `aclDestroyDataBuffer(0xDEAD)`: the constructor fills `inputBuffers_`
twice and never `outputBuffers_`. -/
theorem dtor_destroys_stale_outputBuffer :
    ∃ r : AclOpRunner,
      addInput defaultArgs freshVendor (-1) (some matrixTensor) .ACL_FORMAT_ND staleRunner
        = .returned r ∧
      r.trace = [.aclopCreateAttr 1,
        .aclCreateTensorDesc .ACL_FLOAT 2 [2, 3] .ACL_FORMAT_ND 2,
        .aclCreateDataBuffer 4096 24 3] ∧
      r.outputDescs_ = List.replicate 8 nullptr ∧
      r.outputBuffers_ = [57005, 0, 0, 0, 0, 0, 0, 0] ∧
      dtorCalls r = [.aclopDestroyAttr 1, .aclDestroyTensorDesc 2, .aclDestroyDataBuffer 3,
        .aclDestroyDataBuffer 57005] :=
  ⟨_, rfl, by decide, by decide, by decide, by decide⟩

/-- C8 (as stated, refuted): two `addInput` calls naming position 0 both return; the
descriptor 2 and the buffer 3 created by the first call are overwritten by the second, and
the destructor releases only the descriptor 4 and the buffer 5 of the second call. -/
theorem overwritten_handles_not_released :
    ∃ r : AclOpRunner,
      populate defaultArgs freshVendor overwritingCalls emptyRunner = .returned r ∧
      AclCall.aclCreateTensorDesc .ACL_FLOAT 2 [2, 3] .ACL_FORMAT_ND 2 ∈ r.trace ∧
      AclCall.aclCreateDataBuffer 4096 24 3 ∈ r.trace ∧
      dtorCalls r = [.aclopDestroyAttr 1, .aclDestroyTensorDesc 4, .aclDestroyDataBuffer 5] ∧
      AclCall.aclDestroyTensorDesc 2 ∉ dtor r ∧ AclCall.aclDestroyDataBuffer 3 ∉ dtor r :=
  ⟨_, rfl, by decide, by decide, by decide, by decide, by decide⟩

theorem for_each_desc_mem (a : List Ptr) (p : Ptr) (hp : p ≠ nullptr) (hmem : p ∈ a) :
    AclCall.aclDestroyTensorDesc p ∈ for_each a destoryAclTensorDesc := by
  induction a with
  | nil => simp at hmem
  | cons q qs ih =>
    simp only [for_each, List.mem_append]
    rcases List.mem_cons.mp hmem with h | h
    · left
      subst h
      simp [destoryAclTensorDesc, hp]
    · right
      exact ih h

theorem for_each_buffer_mem (a : List Ptr) (p : Ptr) (hp : p ≠ nullptr) (hmem : p ∈ a) :
    AclCall.aclDestroyDataBuffer p ∈ for_each a destoryAclDataBuffer := by
  induction a with
  | nil => simp at hmem
  | cons q qs ih =>
    simp only [for_each, List.mem_append]
    rcases List.mem_cons.mp hmem with h | h
    · left
      subst h
      simp [destoryAclDataBuffer, hp]
    · right
      exact ih h

theorem dtorCalls_desc_mem (r : AclOpRunner) (p : Ptr) (hp : p ≠ nullptr)
    (hmem : p ∈ r.inputDescs_ ∨ p ∈ r.outputDescs_) :
    AclCall.aclDestroyTensorDesc p ∈ dtorCalls r := by
  simp only [dtorCalls, List.mem_append]
  rcases hmem with h | h
  · exact Or.inl (Or.inl (Or.inl (Or.inr (for_each_desc_mem _ p hp h))))
  · exact Or.inl (Or.inl (Or.inr (for_each_desc_mem _ p hp h)))

theorem dtorCalls_buffer_mem (r : AclOpRunner) (p : Ptr) (hp : p ≠ nullptr)
    (hmem : p ∈ r.inputBuffers_ ∨ p ∈ r.outputBuffers_) :
    AclCall.aclDestroyDataBuffer p ∈ dtorCalls r := by
  simp only [dtorCalls, List.mem_append]
  rcases hmem with h | h
  · exact Or.inl (Or.inr (for_each_buffer_mem _ p hp h))
  · exact Or.inr (for_each_buffer_mem _ p hp h)

theorem getElem?_of_getD_eq_null (l : List Ptr) (f : Nat) (hf : f < l.length)
    (h : l.getD f nullptr = nullptr) : l[f]? = some nullptr := by
  rw [List.getD_eq_getElem l nullptr hf] at h
  rw [List.getElem?_eq_getElem hf, h]

theorem owned_ctor (T : TemplateArgs) (V : Vendor) (raw : RawStorage) (opname : String) :
    Owned (ctor T V raw opname) := by
  constructor
  · intro dt n dims format p _ h
    simp [ctor] at h
  · intro data size p _ h
    simp [ctor] at h

theorem owned_storedInput (T : TemplateArgs) (V : Vendor) (r : AclOpRunner)
    (dt : aclDataType) (t : Tensor) (format : aclFormat) (f : Nat) (hw : WellSized T r)
    (hf : f < T.InputSize) (hfree : r.inputDescs_.getD f nullptr = nullptr)
    (hd : newDesc V r dt t format ≠ nullptr) (ho : Owned r) :
    Owned (storedInput V r dt t format f) := by
  obtain ⟨h1, h2, -, -⟩ := hw
  have hnull := getElem?_of_getD_eq_null r.inputDescs_ f (by omega) hfree
  constructor
  · intro dt' n dims format' p hp hmem
    simp only [storedInput, List.mem_append, List.mem_cons, List.mem_singleton,
      List.not_mem_nil, or_false] at hmem ⊢
    rcases hmem with hmem | hmem | hmem
    · obtain ⟨i, hi | hi⟩ := ho.1 dt' n dims format' p hp hmem
      · refine ⟨i, Or.inl ?_⟩
        have hne : f ≠ i := by
          intro hfi
          rw [← hfi, hnull] at hi
          exact hp (Option.some.inj hi).symm
        rw [List.getElem?_set_ne hne]
        exact hi
      · exact ⟨i, Or.inr hi⟩
    · refine ⟨f, Or.inl ?_⟩
      simp only [descCall] at hmem
      injection hmem with _ _ _ _ hret
      rw [List.getElem?_set_self (by omega), hret]
    · simp [bufferCall] at hmem
  · intro data size p hp hmem
    simp only [storedInput, List.mem_append, List.mem_cons, List.mem_singleton,
      List.not_mem_nil, or_false] at hmem ⊢
    rcases hmem with hmem | hmem | hmem
    · obtain ⟨i, hi | hi⟩ := ho.2 data size p hp hmem
      · refine ⟨i, Or.inl ?_⟩
        have hne : i ≠ f := by
          intro hfi
          rw [hfi] at hi
          exact hi.1 hfree
        rw [getD_set_ne _ _ _ _ hne, List.getElem?_set_ne (Ne.symm hne)]
        exact hi
      · exact ⟨i, Or.inr hi⟩
    · simp [descCall] at hmem
    · refine ⟨f, Or.inl ?_⟩
      simp only [bufferCall] at hmem
      injection hmem with _ _ hret
      rw [getD_set_self _ _ _ (by omega), List.getElem?_set_self (by omega), hret]
      exact ⟨hd, rfl⟩

theorem owned_storedOutput (T : TemplateArgs) (V : Vendor) (r : AclOpRunner)
    (dt : aclDataType) (t : Tensor) (format : aclFormat) (f : Nat) (hw : WellSized T r)
    (hf : f < T.OutputSize) (hfree : r.outputDescs_.getD f nullptr = nullptr)
    (hd : newDesc V r dt t format ≠ nullptr) (ho : Owned r) :
    Owned (storedOutput V r dt t format f) := by
  obtain ⟨-, -, h3, h4⟩ := hw
  have hnull := getElem?_of_getD_eq_null r.outputDescs_ f (by omega) hfree
  constructor
  · intro dt' n dims format' p hp hmem
    simp only [storedOutput, List.mem_append, List.mem_cons, List.mem_singleton,
      List.not_mem_nil, or_false] at hmem ⊢
    rcases hmem with hmem | hmem | hmem
    · obtain ⟨i, hi | hi⟩ := ho.1 dt' n dims format' p hp hmem
      · exact ⟨i, Or.inl hi⟩
      · refine ⟨i, Or.inr ?_⟩
        have hne : f ≠ i := by
          intro hfi
          rw [← hfi, hnull] at hi
          exact hp (Option.some.inj hi).symm
        rw [List.getElem?_set_ne hne]
        exact hi
    · refine ⟨f, Or.inr ?_⟩
      simp only [descCall] at hmem
      injection hmem with _ _ _ _ hret
      rw [List.getElem?_set_self (by omega), hret]
    · simp [bufferCall] at hmem
  · intro data size p hp hmem
    simp only [storedOutput, List.mem_append, List.mem_cons, List.mem_singleton,
      List.not_mem_nil, or_false] at hmem ⊢
    rcases hmem with hmem | hmem | hmem
    · obtain ⟨i, hi | hi⟩ := ho.2 data size p hp hmem
      · exact ⟨i, Or.inl hi⟩
      · refine ⟨i, Or.inr ?_⟩
        have hne : i ≠ f := by
          intro hfi
          rw [hfi] at hi
          exact hi.1 hfree
        rw [getD_set_ne _ _ _ _ hne, List.getElem?_set_ne (Ne.symm hne)]
        exact hi
    · simp [descCall] at hmem
    · refine ⟨f, Or.inr ?_⟩
      simp only [bufferCall] at hmem
      injection hmem with _ _ hret
      rw [getD_set_self _ _ _ (by omega), List.getElem?_set_self (by omega), hret]
      exact ⟨hd, rfl⟩

theorem populate_owned (T : TemplateArgs) (V : Vendor) :
    ∀ (calls : List Call) (r0 r : AclOpRunner), WellSized T r0 → Owned r0 →
      noOverwrite T V calls r0 = true → populate T V calls r0 = .returned r →
      WellSized T r ∧ Owned r := by
  intro calls
  induction calls with
  | nil =>
    intro r0 r hw ho _ h
    simp only [populate] at h
    injection h with h
    subst h
    exact ⟨hw, ho⟩
  | cons c cs ih =>
    intro r0 r hw ho hno h
    simp only [populate] at h
    simp only [noOverwrite, Bool.and_eq_true] at hno
    cases hc : c.exec T V r0 with
    | aborted cause r1 => rw [hc] at h; simp [Outcome.andThen] at h
    | returned r1 =>
      rw [hc] at h hno
      simp only [Outcome.andThen] at h
      obtain ⟨hfree, hno1⟩ := hno
      cases c with
      | addInput index th format =>
        simp only [Call.exec] at hc
        simp only [Call.targetsFreeSlot, decide_eq_true_eq] at hfree
        obtain ⟨t, dt, f, -, hfi, hf, -, hd, hr1⟩ :=
          (addInput_returned_iff _ _ _ _ _ _ _).mp hc
        rw [hfi, Int.toNat_ofNat] at hfree
        subst hr1
        exact ih _ r (storedInput_wellSized T V r0 dt t format f hw)
          (owned_storedInput T V r0 dt t format f hw hf hfree hd ho) hno1 h
      | addOutput index th format =>
        simp only [Call.exec] at hc
        simp only [Call.targetsFreeSlot, decide_eq_true_eq] at hfree
        obtain ⟨t, dt, f, -, hfi, hf, -, hd, hr1⟩ :=
          (addOutput_returned_iff _ _ _ _ _ _ _).mp hc
        rw [hfi, Int.toNat_ofNat] at hfree
        subst hr1
        exact ih _ r (storedOutput_wellSized T V r0 dt t format f hw)
          (owned_storedOutput T V r0 dt t format f hw hf hfree hd ho) hno1 h

/-- C8 (amended): after construction and any sequence of `addInput` and `addOutput` calls
that all return and of which none writes a slot that is already occupied, every
descriptor and every data buffer created during population is held in a slot of the
runner at destruction and is released by the destructor. -/
theorem created_handles_released (T : TemplateArgs) (V : Vendor) (raw : RawStorage)
    (opname : String) (calls : List Call) (r : AclOpRunner)
    (hno : noOverwrite T V calls (ctor T V raw opname) = true)
    (hpop : populate T V calls (ctor T V raw opname) = .returned r) :
    (∀ dt n dims format p, p ≠ nullptr →
      AclCall.aclCreateTensorDesc dt n dims format p ∈ r.trace →
      (p ∈ r.inputDescs_ ∨ p ∈ r.outputDescs_) ∧
        AclCall.aclDestroyTensorDesc p ∈ (dtor r).drop r.trace.length) ∧
    (∀ data size p, p ≠ nullptr → AclCall.aclCreateDataBuffer data size p ∈ r.trace →
      (p ∈ r.inputBuffers_ ∨ p ∈ r.outputBuffers_) ∧
        AclCall.aclDestroyDataBuffer p ∈ (dtor r).drop r.trace.length) := by
  obtain ⟨-, ho⟩ := populate_owned T V calls _ r (ctor_wellSized T V raw opname)
    (owned_ctor T V raw opname) hno hpop
  have hdrop : (dtor r).drop r.trace.length = dtorCalls r := by simp [dtor]
  rw [hdrop]
  constructor
  · intro dt n dims format p hp hmem
    obtain ⟨i, hi⟩ := ho.1 dt n dims format p hp hmem
    have hheld : p ∈ r.inputDescs_ ∨ p ∈ r.outputDescs_ := by
      rcases hi with hi | hi
      · exact Or.inl (List.mem_iff_getElem?.mpr ⟨i, hi⟩)
      · exact Or.inr (List.mem_iff_getElem?.mpr ⟨i, hi⟩)
    exact ⟨hheld, dtorCalls_desc_mem r p hp hheld⟩
  · intro data size p hp hmem
    obtain ⟨i, hi⟩ := ho.2 data size p hp hmem
    have hheld : p ∈ r.inputBuffers_ ∨ p ∈ r.outputBuffers_ := by
      rcases hi with hi | hi
      · exact Or.inl (List.mem_iff_getElem?.mpr ⟨i, hi.2⟩)
      · exact Or.inr (List.mem_iff_getElem?.mpr ⟨i, hi.2⟩)
    exact ⟨hheld, dtorCalls_buffer_mem r p hp hheld⟩

/-- Instance of C8 (amended): after `sparseCalls` the descriptor 2 and the buffer 7 are
held in a slot and released by the destructor. -/
theorem created_handles_released_witness :
    (noOverwrite defaultArgs freshVendor sparseCalls
        (ctor defaultArgs freshVendor zeroStorage "Add") = true ∧
      populate defaultArgs freshVendor sparseCalls
        (ctor defaultArgs freshVendor zeroStorage "Add") = .returned populatedSparse) ∧
    ((2 ∈ populatedSparse.inputDescs_ ∨ 2 ∈ populatedSparse.outputDescs_) ∧
      AclCall.aclDestroyTensorDesc 2
        ∈ (dtor populatedSparse).drop populatedSparse.trace.length) ∧
    ((7 ∈ populatedSparse.inputBuffers_ ∨ 7 ∈ populatedSparse.outputBuffers_) ∧
      AclCall.aclDestroyDataBuffer 7
        ∈ (dtor populatedSparse).drop populatedSparse.trace.length) :=
  have h := created_handles_released defaultArgs freshVendor zeroStorage "Add" sparseCalls
    populatedSparse (by decide) (by decide)
  ⟨⟨by decide, by decide⟩,
    h.1 .ACL_FLOAT 2 [2, 3] .ACL_FORMAT_ND 2 (by decide) (by decide),
    h.2 4096 24 7 (by decide) (by decide)⟩

/-! ## The variadic add -/

theorem addInputVariadic_core (T : TemplateArgs) (V : Vendor)
    (hvendor : ∀ tr dt n dims format, V.aclCreateTensorDesc tr dt n dims format ≠ nullptr) :
    ∀ (ins : List Tensor) (in_ : Tensor) (r : AclOpRunner), WellSized T r →
      (in_ :: ins).length ≤ (freeSlots r.inputDescs_ T.InputSize).length →
      (∀ t ∈ in_ :: ins, ∃ dt, T.dtypeCastStrategy t = .ok dt) →
      ∃ (r' : AclOpRunner) (handles : List (Ptr × Ptr)),
        addInputVariadic T V (some in_) (ins.map some) r = .returned r' ∧
        handles.length = (in_ :: ins).length ∧
        r'.trace = r.trace ++ variadicCalls T (in_ :: ins) handles ∧
        WellSized T r' ∧
        (∀ (j f : Nat) (h : Ptr × Ptr),
          (freeSlots r.inputDescs_ T.InputSize)[j]? = some f → handles[j]? = some h →
          r'.inputDescs_[f]? = some h.1 ∧ r'.inputBuffers_[f]? = some h.2 ∧ h.1 ≠ nullptr) ∧
        (∀ i : Nat, i ∉ (freeSlots r.inputDescs_ T.InputSize).take (in_ :: ins).length →
          r'.inputDescs_[i]? = r.inputDescs_[i]? ∧ r'.inputBuffers_[i]? = r.inputBuffers_[i]?) ∧
        r'.outputDescs_ = r.outputDescs_ ∧ r'.outputBuffers_ = r.outputBuffers_ := by
  intro ins
  induction ins with
  | nil =>
    intro in_ r hw hlen hdtype
    obtain ⟨dt, hdt⟩ := hdtype in_ (List.mem_cons_self _ _)
    cases hfree : freeSlots r.inputDescs_ T.InputSize with
    | nil => rw [hfree] at hlen; simp at hlen
    | cons f rest =>
      have hd := hvendor r.trace dt (tensorDims in_).length (tensorDims in_)
        (getAclDataFormat in_)
      have hf : f < T.InputSize := by
        have : f ∈ freeSlots r.inputDescs_ T.InputSize := by
          rw [hfree]; exact List.mem_cons_self _ _
        exact ((mem_freeSlots _ _ _).mp this).1
      have hstep := addInput_auto_stores T V (-1) in_ (getAclDataFormat in_) r f rest dt
        (by decide) hfree hdt hd
      refine ⟨storedInput V r dt in_ (getAclDataFormat in_) f,
        [(newDesc V r dt in_ (getAclDataFormat in_),
          newBuffer V r dt in_ (getAclDataFormat in_))], ?_, rfl, ?_,
        storedInput_wellSized T V r dt in_ _ f hw, ?_, ?_, rfl, rfl⟩
      · simpa [addInputVariadic, addInputDefaultFormat] using hstep
      · simp [variadicCalls, hdt, storedInput, descCall, bufferCall, newDesc, newBuffer]
      · intro j f' h hj hh
        cases j with
        | zero =>
          simp only [List.getElem?_cons_zero, Option.some.injEq] at hj hh
          subst hj
          subst hh
          simp only [storedInput]
          exact ⟨List.getElem?_set_self (by rw [hw.1]; exact hf),
            List.getElem?_set_self (by rw [hw.2.1]; exact hf), hd⟩
        | succ j => simp at hh
      · intro i hi
        have hne : f ≠ i := by
          intro hfi
          apply hi
          simp [hfi]
        simp only [storedInput]
        exact ⟨List.getElem?_set_ne hne, List.getElem?_set_ne hne⟩
  | cons x xs ih =>
    intro in_ r hw hlen hdtype
    obtain ⟨dt, hdt⟩ := hdtype in_ (List.mem_cons_self _ _)
    cases hfree : freeSlots r.inputDescs_ T.InputSize with
    | nil => rw [hfree] at hlen; simp at hlen
    | cons f rest =>
      have hd := hvendor r.trace dt (tensorDims in_).length (tensorDims in_)
        (getAclDataFormat in_)
      have hf : f < T.InputSize := by
        have : f ∈ freeSlots r.inputDescs_ T.InputSize := by
          rw [hfree]; exact List.mem_cons_self _ _
        exact ((mem_freeSlots _ _ _).mp this).1
      have hstep := addInput_auto_stores T V (-1) in_ (getAclDataFormat in_) r f rest dt
        (by decide) hfree hdt hd
      have hw1 := storedInput_wellSized T V r dt in_ (getAclDataFormat in_) f hw
      have hfree1 : freeSlots (storedInput V r dt in_ (getAclDataFormat in_) f).inputDescs_
          T.InputSize = rest := freeSlots_set_head _ _ _ _ _ hw.1 hfree hd
      have hlen1 : (x :: xs).length ≤ (freeSlots
          (storedInput V r dt in_ (getAclDataFormat in_) f).inputDescs_ T.InputSize).length := by
        rw [hfree1]
        rw [hfree] at hlen
        simp only [List.length_cons] at hlen ⊢
        omega
      obtain ⟨r', handles', hrun, hhl, htrace, hw', hslots, hother, hod, hob⟩ :=
        ih x _ hw1 hlen1 (fun t ht => hdtype t (List.mem_cons_of_mem _ ht))
      rw [hfree1] at hslots hother
      have hfrest : f ∉ rest := by
        intro hmem
        rw [← hfree1, mem_freeSlots] at hmem
        have := hmem.2
        simp only [storedInput] at this
        rw [getD_set_self _ _ _ (by rw [hw.1]; exact hf)] at this
        exact hd this
      have hkeep := hother f (fun hmem => hfrest (List.mem_of_mem_take hmem))
      refine ⟨r', (newDesc V r dt in_ (getAclDataFormat in_),
        newBuffer V r dt in_ (getAclDataFormat in_)) :: handles', ?_, ?_, ?_, hw', ?_, ?_,
        ?_, ?_⟩
      · simp only [List.map_cons, addInputVariadic, addInputDefaultFormat, hstep,
          Outcome.andThen]
        exact hrun
      · simp only [List.length_cons] at hhl ⊢
        omega
      · rw [htrace]
        simp [variadicCalls, hdt, storedInput, descCall, bufferCall, newDesc, newBuffer]
      · intro j f' h hj hh
        cases j with
        | zero =>
          simp only [List.getElem?_cons_zero, Option.some.injEq] at hj hh
          subst hj
          subst hh
          rw [hkeep.1, hkeep.2]
          simp only [storedInput]
          exact ⟨List.getElem?_set_self (by rw [hw.1]; exact hf),
            List.getElem?_set_self (by rw [hw.2.1]; exact hf), hd⟩
        | succ j =>
          simp only [List.getElem?_cons_succ] at hj hh
          exact hslots j f' h hj hh
      · intro i hi
        have hi' : i ≠ f ∧ i ∉ rest.take (x :: xs).length := by
          simp only [List.length_cons, List.take_succ_cons, List.mem_cons, not_or] at hi ⊢
          exact hi
        obtain ⟨h1, h2⟩ := hother i hi'.2
        rw [h1, h2]
        simp only [storedInput]
        exact ⟨List.getElem?_set_ne (Ne.symm hi'.1), List.getElem?_set_ne (Ne.symm hi'.1)⟩
      · rw [hod]; rfl
      · rw [hob]; rfl

theorem not_mem_take_range' (size n k : Nat) (hk : n ≤ k) :
    k ∉ (List.range' 0 size).take n := by
  intro hmem
  rw [List.mem_take_iff_getElem] at hmem
  obtain ⟨i, hi, hik⟩ := hmem
  rw [List.getElem_range'] at hik
  have := lt_min_iff.mp hi
  omega

/-- C7 (amended): for every well-sized builder state and every list of n non-null tensors
such that at least n input slots are free, every tensor's element type is accepted by the
dtype strategy and the vendor returns a non-null descriptor, the variadic `addInput`
returns, having issued for each tensor in argument order its create-descriptor and
create-buffer call; the handles of the j-th tensor are stored in the j-th lowest-index
free input slot, every other input slot and every output slot is unchanged, and from a
state whose input slots are all empty the descriptor array becomes the n non-null handles
in order followed by null slots only. -/
theorem addInputVariadic_fills_free_slots (T : TemplateArgs) (V : Vendor) (in_ : Tensor)
    (ins : List Tensor) (r : AclOpRunner) (hsize : WellSized T r)
    (hfree : (in_ :: ins).length ≤ (freeSlots r.inputDescs_ T.InputSize).length)
    (hdtype : ∀ t ∈ in_ :: ins, ∃ dt, T.dtypeCastStrategy t = .ok dt)
    (hvendor : ∀ tr dt n dims format, V.aclCreateTensorDesc tr dt n dims format ≠ nullptr) :
    ∃ (r' : AclOpRunner) (handles : List (Ptr × Ptr)),
      addInputVariadic T V (some in_) (ins.map some) r = .returned r' ∧
      handles.length = (in_ :: ins).length ∧
      r'.trace = r.trace ++ variadicCalls T (in_ :: ins) handles ∧
      (∀ (j f : Nat) (h : Ptr × Ptr),
        (freeSlots r.inputDescs_ T.InputSize)[j]? = some f → handles[j]? = some h →
        r'.inputDescs_[f]? = some h.1 ∧ r'.inputBuffers_[f]? = some h.2 ∧ h.1 ≠ nullptr) ∧
      (∀ i : Nat, i ∉ (freeSlots r.inputDescs_ T.InputSize).take (in_ :: ins).length →
        r'.inputDescs_[i]? = r.inputDescs_[i]? ∧ r'.inputBuffers_[i]? = r.inputBuffers_[i]?) ∧
      r'.outputDescs_ = r.outputDescs_ ∧ r'.outputBuffers_ = r.outputBuffers_ ∧
      (r.inputDescs_ = List.replicate T.InputSize nullptr →
        r'.inputDescs_ = handles.map Prod.fst
            ++ List.replicate (T.InputSize - (in_ :: ins).length) nullptr ∧
          ∀ h ∈ handles, h.1 ≠ nullptr) := by
  obtain ⟨r', handles, hrun, hhl, htrace, -, hslots, hother, hod, hob⟩ :=
    addInputVariadic_core T V hvendor ins in_ r hsize hfree hdtype
  refine ⟨r', handles, hrun, hhl, htrace, hslots, hother, hod, hob, ?_⟩
  intro hrep
  have hn : (in_ :: ins).length ≤ T.InputSize :=
    le_trans hfree (freeSlots_length_le _ _)
  rw [hrep, freeSlots_replicate] at hslots hother
  constructor
  · apply List.ext_getElem?
    intro k
    by_cases hk : k < handles.length
    · have hfk : (List.range' 0 T.InputSize)[k]? = some k := by
        rw [List.getElem?_range' 0 1 (by omega : k < T.InputSize)]
        simp
      have hhk : handles[k]? = some handles[k] := List.getElem?_eq_getElem hk
      rw [(hslots k k handles[k] hfk hhk).1,
        List.getElem?_append_left (by simpa using hk), List.getElem?_map, hhk]
      rfl
    · have hk' : (in_ :: ins).length ≤ k := by omega
      rw [(hother k (not_mem_take_range' _ _ _ hk')).1,
        List.getElem?_append_right (by simpa using not_lt.mp hk), List.getElem?_replicate,
        List.getElem?_replicate, List.length_map]
      by_cases hks : k < T.InputSize
      · rw [if_pos hks, if_pos (by omega)]
      · rw [if_neg hks, if_neg (by omega)]
  · intro h hmem
    obtain ⟨j, hj⟩ := List.mem_iff_getElem?.mp hmem
    have hjl : j < handles.length := by
      by_contra hcon
      rw [List.getElem?_eq_none (not_lt.mp hcon)] at hj
      exact Option.noConfusion hj
    have hfj : (List.range' 0 T.InputSize)[j]? = some j := by
      rw [List.getElem?_range' 0 1 (by omega : j < T.InputSize)]
      simp
    exact (hslots j j h hfj hj).2.2

/-- C7 (as stated, refuted): on the empty default runner, with eight free input slots, the
variadic `addInput` of one non-null tensor whose element type is not supported aborts in
`getAclDataType`; the tensor is not stored and slot 0 stays empty. -/
theorem addInputVariadic_aborts_on_unlisted_dtype :
    (freeSlots emptyRunner.inputDescs_ defaultArgs.InputSize).length = 8 ∧
    addInputVariadic defaultArgs freshVendor (some unlistedTensor) [] emptyRunner
      = .aborted .unsupportedDtype emptyRunner ∧
    emptyRunner.inputDescs_[0]? = some nullptr := by
  decide

/-- Instance of C7 (amended): with input slots 0 and 2 occupied, the variadic add of two
tensors fills slots 1 and 3. -/
theorem addInputVariadic_fills_free_slots_witness :
    (WellSized defaultArgs gappedRunner ∧
      (scalarTensor :: [matrixTensor]).length
        ≤ (freeSlots gappedRunner.inputDescs_ defaultArgs.InputSize).length ∧
      (∀ t ∈ scalarTensor :: [matrixTensor], ∃ dt, defaultArgs.dtypeCastStrategy t = .ok dt) ∧
      (∀ tr dt n dims format, freshVendor.aclCreateTensorDesc tr dt n dims format ≠ nullptr)) ∧
    freeSlots gappedRunner.inputDescs_ defaultArgs.InputSize = [1, 3, 4, 5, 6, 7] ∧
    gappedFilled.inputDescs_ = [2, 6, 4, 8, 0, 0, 0, 0] ∧
    ∃ (r' : AclOpRunner) (handles : List (Ptr × Ptr)),
      addInputVariadic defaultArgs freshVendor (some scalarTensor)
        ([matrixTensor].map some) gappedRunner = .returned r' ∧
      handles.length = (scalarTensor :: [matrixTensor]).length ∧
      r'.trace = gappedRunner.trace
        ++ variadicCalls defaultArgs (scalarTensor :: [matrixTensor]) handles ∧
      (∀ (j f : Nat) (h : Ptr × Ptr),
        (freeSlots gappedRunner.inputDescs_ defaultArgs.InputSize)[j]? = some f →
        handles[j]? = some h →
        r'.inputDescs_[f]? = some h.1 ∧ r'.inputBuffers_[f]? = some h.2 ∧ h.1 ≠ nullptr) ∧
      (∀ i : Nat,
        i ∉ (freeSlots gappedRunner.inputDescs_ defaultArgs.InputSize).take
          (scalarTensor :: [matrixTensor]).length →
        r'.inputDescs_[i]? = gappedRunner.inputDescs_[i]? ∧
          r'.inputBuffers_[i]? = gappedRunner.inputBuffers_[i]?) ∧
      r'.outputDescs_ = gappedRunner.outputDescs_ ∧
      r'.outputBuffers_ = gappedRunner.outputBuffers_ ∧
      (gappedRunner.inputDescs_ = List.replicate defaultArgs.InputSize nullptr →
        r'.inputDescs_ = handles.map Prod.fst
            ++ List.replicate (defaultArgs.InputSize - (scalarTensor :: [matrixTensor]).length)
              nullptr ∧
          ∀ h ∈ handles, h.1 ≠ nullptr) :=
  have h1 : WellSized defaultArgs gappedRunner := by unfold WellSized; decide
  have h2 : (scalarTensor :: [matrixTensor]).length
      ≤ (freeSlots gappedRunner.inputDescs_ defaultArgs.InputSize).length := by decide
  have h3 : ∀ t ∈ scalarTensor :: [matrixTensor],
      ∃ dt, defaultArgs.dtypeCastStrategy t = .ok dt := by
    intro t ht
    simp only [List.mem_cons, List.mem_singleton, List.not_mem_nil, or_false] at ht
    rcases ht with rfl | rfl
    · exact ⟨.ACL_INT64, rfl⟩
    · exact ⟨.ACL_FLOAT, rfl⟩
  have h4 : ∀ tr dt n dims format,
      freshVendor.aclCreateTensorDesc tr dt n dims format ≠ nullptr :=
    fun tr _ _ _ _ => Nat.succ_ne_zero tr.length
  ⟨⟨h1, h2, h3, h4⟩, by decide, by decide,
    addInputVariadic_fills_free_slots defaultArgs freshVendor scalarTensor [matrixTensor]
      gappedRunner h1 h2 h3 h4⟩

end AclOpRunner

end impl.ascend
